import Mathlib

/-!
Verification of the JustAddDocuments repository against its specification.

The development shallowly embeds the TypeScript sources:
  * src/services/claude.ts        — `renameComponentToApp` (the Code Normalizer)
  * src/components/FileUpload.tsx — `markdownToHtml`, `formatResponse`
    (the Placeholder Protocol), `saveToLocalStorage`, the load/save
    `useEffect` pair, `handleBeginLearning`'s tab construction, and
    `handleRegenerateVisualization`'s state update.

JavaScript strings are modelled as `List Char`.  Each concrete regular
expression of the source is hand-compiled to an executable matcher with the
same semantics (leftmost match, greediness and the backtracking behaviour
the pattern admits).  `\s` and case folding are modelled on the ASCII
range, which covers every character the source's patterns distinguish.
All recursion is structural (scanners that skip over a match use an explicit
fuel argument bounded by the string length), so every definition evaluates
by `decide`.
-/

namespace JAD

abbrev Str := List Char

/-- JavaScript `\s` (ASCII range). -/
def isWsJS (c : Char) : Bool :=
  c = ' ' || c = '\t' || c = '\n' || c = '\r' || c = '\x0b' || c = '\x0c'

/-- `[A-Z]`. -/
def isUpperAZ (c : Char) : Bool := 'A' ≤ c && c ≤ 'Z'

/-- `[a-zA-Z0-9]`. -/
def isIdentChar (c : Char) : Bool :=
  isUpperAZ c || ('a' ≤ c && c ≤ 'z') || ('0' ≤ c && c ≤ '9')

/-- `[a-zA-Z]`. -/
def isAsciiLetter (c : Char) : Bool :=
  isUpperAZ c || ('a' ≤ c && c ≤ 'z')

/-- `[0-9]`. -/
def isDigitChar (c : Char) : Bool := '0' ≤ c && c ≤ '9'

/-- `[a-zA-Z0-9_]` (a placeholder-id character). -/
def isPlaceholderIdChar (c : Char) : Bool := isIdentChar c || c = '_'

/-- ASCII case folding, used for the one case-insensitive (`/i`) regex. -/
def lowerAscii (c : Char) : Char :=
  if 'A' ≤ c && c ≤ 'Z' then Char.ofNat (c.toNat + 32) else c

/-- Match a literal, returning the rest of the input after it. -/
def lit : Str → Str → Option Str
  | [], s => some s
  | _ :: _, [] => none
  | p :: ps, c :: cs => if c = p then lit ps cs else none

/-- Case-insensitive literal match (ASCII folding). -/
def litCI : Str → Str → Option Str
  | [], s => some s
  | _ :: _, [] => none
  | p :: ps, c :: cs => if lowerAscii c = lowerAscii p then litCI ps cs else none

/-- `\s*` (greedy): the consumed whitespace and the rest. -/
def wsStar : Str → Str × Str
  | [] => ([], [])
  | c :: cs =>
    if isWsJS c then
      let (w, r) := wsStar cs
      (c :: w, r)
    else ([], c :: cs)

/-- `\s+` (greedy). -/
def wsPlus (s : Str) : Option (Str × Str) :=
  match s with
  | [] => none
  | c :: cs =>
    if isWsJS c then
      let (w, r) := wsStar cs
      some (c :: w, r)
    else none

/-- `[a-zA-Z0-9]*` (greedy). -/
def identTail : Str → Str × Str
  | [] => ([], [])
  | c :: cs =>
    if isIdentChar c then
      let (t, r) := identTail cs
      (c :: t, r)
    else ([], c :: cs)

/-- `[A-Z][a-zA-Z0-9]*` (greedy). -/
def upperIdent (s : Str) : Option (Str × Str) :=
  match s with
  | [] => none
  | c :: cs =>
    if isUpperAZ c then
      let (t, r) := identTail cs
      some (c :: t, r)
    else none

/-- `[^)]*\)`: the interior (no `)`) and the rest after the closing paren. -/
def parenScan : Str → Option (Str × Str)
  | [] => none
  | c :: cs =>
    if c = ')' then some ([], cs)
    else (parenScan cs).map (fun qr => (c :: qr.1, qr.2))

/-- Boolean "is a prefix of". -/
def isPrefixB (pat s : Str) : Bool := (lit pat s).isSome

/-- JavaScript `String.prototype.trim` (ASCII whitespace model). -/
def trimJS (s : Str) : Str :=
  ((s.dropWhile (fun c => isWsJS c)).reverse.dropWhile (fun c => isWsJS c)).reverse

/-! ### src/services/claude.ts — `renameComponentToApp`

The Code Normalizer.  Its initial check is the case-insensitive test

  `/function\s+App\s*\(|const\s+App\s*=\s*(\([^)]*\)|)\s*=>|class\s+App\s+extends\s+React\.Component/i`

and the three rewriting passes use the case-sensitive global regexes

  1. `/function\s+([A-Z][a-zA-Z0-9]*)\s*\(/g`            → `function App(`
  2. `/const\s+([A-Z][a-zA-Z0-9]*)\s*=\s*(\([^)]*\)|)\s*=>/g` → `const App = $2 =>`
  3. `/class\s+([A-Z][a-zA-Z0-9]*)\s+extends\s+React\.Component/g`
                                                         → `class App extends React.Component`
-/

/-- Alternative 1 of the `/i` test matches at the head of `s`. -/
def testFnAppAt (s : Str) : Bool :=
  match litCI "function".data s with
  | none => false
  | some r1 =>
    match wsPlus r1 with
    | none => false
    | some wr =>
      match litCI "App".data wr.2 with
      | none => false
      | some r3 => (lit "(".data (wsStar r3).2).isSome

/-- The empty alternative of `(\([^)]*\)|)` followed by `\s*` and `x`. -/
def arrowEmptyAlt (x : Str) (s : Str) : Option (Str × Str × Str) :=
  let wr := wsStar s
  match lit x wr.2 with
  | none => none
  | some r3 => some ([], wr.1, r3)

/-- The `(\([^)]*\)|)\s*x` tail of the arrow patterns: an optional
parenthesised parameter list followed by `\s*` and the literal `x`.
When the head is `(` the paren alternative is forced: on its failure the
empty alternative cannot match either, since `(` is neither whitespace nor
the head of the literals used here. -/
def arrowParamsThen (x : Str) (s : Str) : Option (Str × Str × Str) :=
  match s with
  | [] => arrowEmptyAlt x []
  | c :: r =>
    if c = '(' then
      match parenScan r with
      | none => none
      | some qr =>
        let wr := wsStar qr.2
        match lit x wr.2 with
        | none => none
        | some r4 => some ('(' :: (qr.1 ++ [')']), wr.1, r4)
    else arrowEmptyAlt x (c :: r)

/-- Alternative 2 of the `/i` test matches at the head of `s`. -/
def testArrowAppAt (s : Str) : Bool :=
  match litCI "const".data s with
  | none => false
  | some r1 =>
    match wsPlus r1 with
    | none => false
    | some wr =>
      match litCI "App".data wr.2 with
      | none => false
      | some r3 =>
        match litCI "=".data (wsStar r3).2 with
        | none => false
        | some r5 => (arrowParamsThen "=>".data (wsStar r5).2).isSome

/-- Alternative 3 of the `/i` test matches at the head of `s`. -/
def testClassAppAt (s : Str) : Bool :=
  match litCI "class".data s with
  | none => false
  | some r1 =>
    match wsPlus r1 with
    | none => false
    | some wr =>
      match litCI "App".data wr.2 with
      | none => false
      | some r3 =>
        match wsPlus r3 with
        | none => false
        | some wr2 =>
          match litCI "extends".data wr2.2 with
          | none => false
          | some r5 =>
            match wsPlus r5 with
            | none => false
            | some wr3 => (litCI "React.Component".data wr3.2).isSome

/-- Some alternative of the `/i` test matches at the head of `s`. -/
def testAppAt (s : Str) : Bool :=
  testFnAppAt s || testArrowAppAt s || testClassAppAt s

/-- The `/i` test: some alternative matches at some position of `s`. -/
def hasAppComponent : Str → Bool
  | [] => false
  | c :: cs => testAppAt (c :: cs) || hasAppComponent cs

/-- One match of `/function\s+([A-Z][a-zA-Z0-9]*)\s*\(/` at the head of `s`:
returns (matched text, capture 1, rest). -/
def matchFnDecl (s : Str) : Option (Str × Str × Str) :=
  match lit "function".data s with
  | none => none
  | some r1 =>
    match wsPlus r1 with
    | none => none
    | some wr1 =>
      match upperIdent wr1.2 with
      | none => none
      | some nr =>
        let wr2 := wsStar nr.2
        match lit "(".data wr2.2 with
        | none => none
        | some r5 =>
          some ("function".data ++ wr1.1 ++ nr.1 ++ wr2.1 ++ "(".data, nr.1, r5)

/-- One match of `/const\s+([A-Z][a-zA-Z0-9]*)\s*=\s*(\([^)]*\)|)\s*=>/` at
the head of `s`: returns (matched text, capture 1, capture 2, rest). -/
def matchArrowDecl (s : Str) : Option (Str × Str × Str × Str) :=
  match lit "const".data s with
  | none => none
  | some r1 =>
    match wsPlus r1 with
    | none => none
    | some wr1 =>
      match upperIdent wr1.2 with
      | none => none
      | some nr =>
        let wr2 := wsStar nr.2
        match lit "=".data wr2.2 with
        | none => none
        | some r5 =>
          let wr3 := wsStar r5
          match arrowParamsThen "=>".data wr3.2 with
          | none => none
          | some pwr =>
            some ("const".data ++ wr1.1 ++ nr.1 ++ wr2.1 ++ "=".data ++ wr3.1 ++
                    pwr.1 ++ pwr.2.1 ++ "=>".data,
                  nr.1, pwr.1, pwr.2.2)

/-- One match of `/class\s+([A-Z][a-zA-Z0-9]*)\s+extends\s+React\.Component/`
at the head of `s`: returns (matched text, capture 1, rest). -/
def matchClassDecl (s : Str) : Option (Str × Str × Str) :=
  match lit "class".data s with
  | none => none
  | some r1 =>
    match wsPlus r1 with
    | none => none
    | some wr1 =>
      match upperIdent wr1.2 with
      | none => none
      | some nr =>
        match wsPlus nr.2 with
        | none => none
        | some wr2 =>
          match lit "extends".data wr2.2 with
          | none => none
          | some r5 =>
            match wsPlus r5 with
            | none => none
            | some wr3 =>
              match lit "React.Component".data wr3.2 with
              | none => none
              | some r7 =>
                some ("class".data ++ wr1.1 ++ nr.1 ++ wr2.1 ++ "extends".data ++
                        wr3.1 ++ "React.Component".data,
                      nr.1, r7)

/-- The guard shared by the three replacement callbacks:
`componentName === 'App' || match.trim().startsWith('//') || match.trim().startsWith('*')`. -/
def renameGuard (matchText name : Str) : Bool :=
  name = "App".data
    || isPrefixB "//".data (trimJS matchText)
    || isPrefixB "*".data (trimJS matchText)

/-- Case 1 pass: global replace of function declarations, also reporting
whether the callback performed a rename (`functionMatched`). -/
def replaceFnGo : Nat → Str → Str × Bool
  | _, [] => ([], false)
  | 0, s => (s, false)
  | n + 1, c :: cs =>
    match matchFnDecl (c :: cs) with
    | some (t, name, r) =>
      if renameGuard t name then
        let (out, fm) := replaceFnGo n r
        (t ++ out, fm)
      else
        let (out, _) := replaceFnGo n r
        ("function App(".data ++ out, true)
    | none =>
      let (out, fm) := replaceFnGo n cs
      (c :: out, fm)

def replaceFnDecls (s : Str) : Str × Bool := replaceFnGo s.length s

/-- Case 2 pass: global replace of arrow-function const assignments,
emitting `const App = ${params} =>`. -/
def replaceArrowGo : Nat → Str → Str
  | _, [] => []
  | 0, s => s
  | n + 1, c :: cs =>
    match matchArrowDecl (c :: cs) with
    | some (t, name, params, r) =>
      if renameGuard t name then t ++ replaceArrowGo n r
      else "const App = ".data ++ params ++ " =>".data ++ replaceArrowGo n r
    | none => c :: replaceArrowGo n cs

def replaceArrows (s : Str) : Str := replaceArrowGo s.length s

/-- Case 3 pass: global replace of class declarations extending
`React.Component`. -/
def replaceClassGo : Nat → Str → Str
  | _, [] => []
  | 0, s => s
  | n + 1, c :: cs =>
    match matchClassDecl (c :: cs) with
    | some (t, name, r) =>
      if renameGuard t name then t ++ replaceClassGo n r
      else "class App extends React.Component".data ++ replaceClassGo n r
    | none => c :: replaceClassGo n cs

def replaceClasses (s : Str) : Str := replaceClassGo s.length s

/-- `renameComponentToApp` from src/services/claude.ts.  (The `console.log`
calls of the source have no observable effect and are not modelled.) -/
def renameComponentToApp (code : Str) : Str :=
  if hasAppComponent code then code
  else
    let (s1, functionMatched) := replaceFnDecls code
    let s2 := if functionMatched then s1 else replaceArrows s1
    replaceClasses s2

/-- All characters satisfy JS `\s`. -/
def allWs (w : Str) : Prop := ∀ c ∈ w, isWsJS c = true

/-- The head (if any) is not JS whitespace. -/
def headNotWs (s : Str) : Prop := ∀ c rr, s = c :: rr → isWsJS c = false

/-- Shape of capture 2 of the arrow pattern: empty, or a parenthesised
group whose interior has no `)`. -/
def paramsOk (p : Str) : Prop :=
  p = [] ∨ ∃ q, p = '(' :: (q ++ [')']) ∧ ∀ c ∈ q, c ≠ ')'

/-- An `App` declaration in one of the three forms the Normalizer's initial
check recognises is present in the code (with arbitrary whitespace, exactly
as the check's regex allows). -/
def AppDeclPresent (code : Str) : Prop :=
  (∃ a w1 w2 b, allWs w1 ∧ w1 ≠ [] ∧ allWs w2 ∧
    code = a ++ "function".data ++ w1 ++ "App".data ++ w2 ++ "(".data ++ b) ∨
  (∃ a w1 w2 w3 p w4 b, allWs w1 ∧ w1 ≠ [] ∧ allWs w2 ∧ allWs w3 ∧ allWs w4 ∧
    paramsOk p ∧ (p = [] → w4 = []) ∧
    code = a ++ "const".data ++ w1 ++ "App".data ++ w2 ++ "=".data ++ w3 ++
      p ++ w4 ++ "=>".data ++ b) ∨
  (∃ a w1 w2 w3 b, allWs w1 ∧ w1 ≠ [] ∧ allWs w2 ∧ w2 ≠ [] ∧ allWs w3 ∧ w3 ≠ [] ∧
    code = a ++ "class".data ++ w1 ++ "App".data ++ w2 ++ "extends".data ++ w3 ++
      "React.Component".data ++ b)

/-! ### src/components/FileUpload.tsx — data model and persistence

`LearningTab` and `Visualization` are the two interfaces of the file.
`StoredTab`/`StoredVis` are their JSON images: `JSON.stringify`/`JSON.parse`
round-trips records structurally, drops `undefined` fields (an absent field
is `none`), and forgets the status union type (a parsed status is an
arbitrary optional string, which the load effect backfills). -/

inductive VisStatus
  | loading
  | ready
  | error
deriving DecidableEq

structure Visualization where
  id : Str
  description : Str
  code : Str
  status : VisStatus
  error : Option Str
deriving DecidableEq

structure LearningTab where
  id : Str
  title : Str
  content : Str
  visualizations : List Visualization
  fileData : Option Str
deriving DecidableEq

structure StoredVis where
  id : Str
  description : Str
  code : Str
  status : Option Str
  error : Option Str
deriving DecidableEq

structure StoredTab where
  id : Str
  title : Str
  content : Str
  visualizations : List StoredVis
  fileData : Option Str
deriving DecidableEq

def statusToString : VisStatus → Str
  | .loading => "loading".data
  | .ready => "ready".data
  | .error => "error".data

/-- Reading a status string back into the union type.  The load effect only
ever sees statuses that were serialized from the typed field (or backfills
`"ready"`), so the catch-all branch is unreachable on stored data. -/
def statusOfString (s : Str) : VisStatus :=
  if s = "loading".data then .loading
  else if s = "error".data then .error
  else .ready

def encodeVis (v : Visualization) : StoredVis :=
  { id := v.id, description := v.description, code := v.code,
    status := some (statusToString v.status), error := v.error }

def encodeTab (t : LearningTab) : StoredTab :=
  { id := t.id, title := t.title, content := t.content,
    visualizations := t.visualizations.map encodeVis, fileData := t.fileData }

/-- `JSON.stringify(learningTabs)`, viewed structurally. -/
def encodeTabs (ts : List LearningTab) : List StoredTab := ts.map encodeTab

/-- JavaScript `x || y` on an optional string: `undefined` and `""` are
falsy. -/
def jsOrStr (o : Option Str) (dflt : Str) : Str :=
  match o with
  | none => dflt
  | some s => if s = [] then dflt else s

/-- One artifact of the load effect's
`visualizations.map(vis => ({ ...vis, status: vis.status || 'ready' }))`. -/
def restoreVis (v : StoredVis) : Visualization :=
  { id := v.id, description := v.description, code := v.code,
    status := statusOfString (jsOrStr v.status "ready".data), error := v.error }

/-- One tab of the load effect's `parsedTabs.map(tab => ({ ...tab, ... }))`. -/
def restoreTab (t : StoredTab) : LearningTab :=
  { id := t.id, title := t.title, content := t.content,
    visualizations := t.visualizations.map restoreVis, fileData := t.fileData }

inductive AppView
  | upload
  | content
  | visualization
deriving DecidableEq

structure LoadedState where
  learningTabs : List LearningTab
  activeTab : Option Str
  view : AppView
deriving DecidableEq

/-- The load `useEffect`: deserialize `localStorage.getItem('learningTabs')`,
backfill missing statuses, and activate the most recent tab.  `saved` is the
parsed stored entry (`none` when the key is absent); the initial
`useState` values are kept when there is nothing to restore. -/
def loadSavedTabs (saved : Option (List StoredTab)) : LoadedState :=
  match saved with
  | none => { learningTabs := [], activeTab := none, view := .upload }
  | some parsedTabs =>
    let restoredTabs := parsedTabs.map restoreTab
    if restoredTabs.length > 0 then
      { learningTabs := restoredTabs,
        activeTab := restoredTabs.getLast?.map (fun t => t.id),
        view := .content }
    else
      { learningTabs := restoredTabs, activeTab := none, view := .upload }

/-- Outcome of one `localStorage.setItem` call: success, a
`DOMException` named `QuotaExceededError`, or any other failure. -/
inductive SetOutcome
  | ok
  | quota
  | err
deriving DecidableEq

/-- Observable effects of `saveToLocalStorage`: the payloads passed to
successive `setItem` calls, the committed entry (if any write succeeded),
whether the one-time `alert` fired, and the function's return value. -/
structure SaveResult where
  attempts : List (List StoredTab)
  stored : Option (List StoredTab)
  alerted : Bool
  returned : Bool
deriving DecidableEq

/-- `saveToLocalStorage` from src/components/FileUpload.tsx, driven by the
outcomes `o1`, `o2` of its (at most two) `setItem` calls.  The size
estimate only emits a console warning and is not otherwise observable.
The call site passes the `learningTabs` array, so `Array.isArray(data)`
holds by construction of the model. -/
def saveToLocalStorage (key : Str) (data : List LearningTab) (o1 o2 : SetOutcome) :
    SaveResult :=
  let serialized := encodeTabs data
  match o1 with
  | .ok => { attempts := [serialized], stored := some serialized,
             alerted := false, returned := true }
  | .err => { attempts := [serialized], stored := none,
              alerted := false, returned := false }
  | .quota =>
    if key = "learningTabs".data then
      let strippedData := data.map (fun tab => { tab with fileData := none })
      let serialized2 := encodeTabs strippedData
      match o2 with
      | .ok => { attempts := [serialized, serialized2], stored := some serialized2,
                 alerted := true, returned := true }
      | _ => { attempts := [serialized, serialized2], stored := none,
               alerted := false, returned := false }
    else { attempts := [serialized], stored := none, alerted := false, returned := false }

/-- The save `useEffect`: persist a non-empty tab list through
`saveToLocalStorage`, remove the entry for an empty list.  A failed write
leaves the previously stored entry untouched. -/
def saveTabsEffect (learningTabs : List LearningTab) (o1 o2 : SetOutcome)
    (storage : Option (List StoredTab)) : Option (List StoredTab) :=
  if learningTabs.length > 0 then
    match (saveToLocalStorage "learningTabs".data learningTabs o1 o2).stored with
    | some v => some v
    | none => storage
  else none

/-- One extracted visualization block of `extractPaperAndVisualizations`. -/
structure ExtractedVis where
  id : Str
  description : Str
  code : Str
deriving DecidableEq

/-- `extractedVisualizations.map(vis => ({ ...vis, status: 'ready' }))`. -/
def processVisualizations (vs : List ExtractedVis) : List Visualization :=
  vs.map (fun vis =>
    { id := vis.id, description := vis.description, code := vis.code,
      status := .ready, error := none })

/-- The `LearningTab` handleBeginLearning builds after a successful
analysis: file data is cached on the session only when the originating
file is under the fixed 5 MB threshold. -/
def handleBeginLearningNewTab (newTabId fileName : Str) (fileSize : Nat)
    (base64Data paperContent : Str) (extractedVisualizations : List ExtractedVis) :
    LearningTab :=
  let processedVisualizations := processVisualizations extractedVisualizations
  let fileDataToStore : Option Str :=
    if fileSize < 5 * 1024 * 1024 then some base64Data else none
  { id := newTabId, title := fileName, content := paperContent,
    visualizations := processedVisualizations, fileData := fileDataToStore }

/-- The `setLearningTabs` update handleRegenerateVisualization performs
after a successful regeneration. -/
def regenerateUpdateTabs (prevTabs : List LearningTab) (activeTab visId : Str)
    (updatedVisualization : Visualization) : List LearningTab :=
  prevTabs.map (fun tab =>
    if tab.id = activeTab then
      { tab with visualizations := tab.visualizations.map (fun v =>
          if v.id = visId then updatedVisualization else v) }
    else tab)

/-! ### src/components/FileUpload.tsx — `markdownToHtml`

Each regex pass of the source is hand-compiled.  The `gm` (per-line)
passes become `mapLines` of a line function; the global scanning passes
become fuel-driven scanners that emit the replacement and resume after
the match, exactly as the JS engine does.  Line terminators are modelled
as `\n` (the source never introduces other terminators). -/

def isLowerAZ (c : Char) : Bool := 'a' ≤ c && c ≤ 'z'

/-- Split at every `\n` (keeping empty segments). -/
def splitLines : Str → List Str
  | [] => [[]]
  | c :: cs =>
    if c = '\n' then [] :: splitLines cs
    else
      match splitLines cs with
      | [] => [[c]]
      | l :: ls => (c :: l) :: ls

def joinLines (ls : List Str) : Str := List.intercalate ['\n'] ls

/-- Apply a per-line transformation (a `/^...$/gm` regex pass). -/
def mapLines (f : Str → Str) (s : Str) : Str := joinLines ((splitLines s).map f)

/-- A `/^pre(.+)$/gm → wrapL$1wrapR` line rule (headers, list items). -/
def mdLineRule (pre wrapL wrapR : Str) (line : Str) : Str :=
  match lit pre line with
  | some rest => if rest ≠ [] then wrapL ++ rest ++ wrapR else line
  | none => line

/-- The ordered-list item rule `/^\d+\. (.+)$/gm → <li>$1</li>`. -/
def olItemLine (line : Str) : Str :=
  let dr := line.span (fun c => isDigitChar c)
  if dr.1 ≠ [] then
    match lit ". ".data dr.2 with
    | some rest => if rest ≠ [] then "<li>".data ++ rest ++ "</li>".data else line
    | none => line
  else line

/-- Boolean "is a suffix of". -/
def isSuffixB (pat s : Str) : Bool := isPrefixB pat.reverse s.reverse

/-- One match of `/(<li>.+<\/li>)\n(?=<li>)/` at the head of `s`:
the group must cover the rest of the current line (so `</li>` sits right
before the `\n`) and the next line must begin with `<li>`.  Returns the
kept group and the scan-resume point (just after the consumed `\n`). -/
def liJoinTry (s : Str) : Option (Str × Str) :=
  let seg := s.takeWhile (fun c => c ≠ '\n')
  match s.dropWhile (fun c => c ≠ '\n') with
  | [] => none
  | _ :: rest2 =>
    if isPrefixB "<li>".data seg && isSuffixB "</li>".data seg &&
        decide (10 ≤ seg.length) && isPrefixB "<li>".data rest2 then
      some (seg, rest2)
    else none

def liJoinGo : Nat → Str → Str
  | _, [] => []
  | 0, s => s
  | n + 1, c :: cs =>
    match liJoinTry (c :: cs) with
    | some (seg, rest2) => seg ++ liJoinGo n rest2
    | none => c :: liJoinGo n cs

/-- The `/(<li>.+<\/li>)\n(?=<li>)/g → $1` pass. -/
def liJoin (s : Str) : Str := liJoinGo s.length s

/-- Index of the last match of `pat` (innermost position preferred). -/
def lastMatchIdx (pat : Str) : Str → Option Nat
  | [] => none
  | c :: cs =>
    match lastMatchIdx pat cs with
    | some j => some (j + 1)
    | none => if isPrefixB pat (c :: cs) then some 0 else none

/-- One match of `/(<li>.+<\/li>)+/` at the head of `s`: starts with
`<li>`, cannot cross `\n`, and greedily extends to the last `</li>` of the
line whose start leaves at least one `.+` character (start index ≥ 5). -/
def liWrapTry (s : Str) : Option (Str × Str) :=
  if isPrefixB "<li>".data s then
    let seg := s.takeWhile (fun c => c ≠ '\n')
    match lastMatchIdx "</li>".data seg with
    | some i =>
      if 5 ≤ i then some (seg.take (i + 5), s.drop (i + 5)) else none
    | none => none
  else none

def liWrapGo (wrapL wrapR : Str) : Nat → Str → Str
  | _, [] => []
  | 0, s => s
  | n + 1, c :: cs =>
    match liWrapTry (c :: cs) with
    | some (m, rest) => wrapL ++ m ++ wrapR ++ liWrapGo wrapL wrapR n rest
    | none => c :: liWrapGo wrapL wrapR n cs

/-- The `/(<li>.+<\/li>)+/g → wrapL$&wrapR` pass. -/
def liWrap (wrapL wrapR : Str) (s : Str) : Str := liWrapGo wrapL wrapR s.length s

/-- First index at which `close` matches, with every skipped character a
valid `.` (non-`\n`) — the search a lazy `(.+?)close` performs. -/
def findClose (close : Str) : Str → Option Nat
  | [] => none
  | c :: cs =>
    if isPrefixB close (c :: cs) then some 0
    else if c = '\n' then none
    else (findClose close cs).map (fun j => j + 1)

/-- One match of `/open(.+?)close/` at the head of `s` (bold and italic). -/
def lazyWrapTry (opn close wrapL wrapR : Str) (s : Str) : Option (Str × Str) :=
  match lit opn s with
  | none => none
  | some rest =>
    match rest with
    | [] => none
    | c0 :: r2 =>
      if c0 = '\n' then none
      else
        match findClose close r2 with
        | some j =>
          some (wrapL ++ (c0 :: r2.take j) ++ wrapR, r2.drop (j + close.length))
        | none => none

def lazyWrapGo (opn close wrapL wrapR : Str) : Nat → Str → Str
  | _, [] => []
  | 0, s => s
  | n + 1, c :: cs =>
    match lazyWrapTry opn close wrapL wrapR (c :: cs) with
    | some (e, rest) => e ++ lazyWrapGo opn close wrapL wrapR n rest
    | none => c :: lazyWrapGo opn close wrapL wrapR n cs

def lazyWrap (opn close wrapL wrapR : Str) (s : Str) : Str :=
  lazyWrapGo opn close wrapL wrapR s.length s

/-- First index at which `pat` matches (plain substring search). -/
def firstMatchIdx (pat : Str) : Str → Option Nat
  | [] => none
  | c :: cs =>
    if isPrefixB pat (c :: cs) then some 0
    else (firstMatchIdx pat cs).map (fun j => j + 1)

/-- One match of the code-block pattern at the head of `s`:
three backticks, a greedy letter run (the language), a lazy any-character
body, and the closing three backticks. -/
def codeBlockTry (s : Str) : Option (Str × Str) :=
  match lit "```".data s with
  | none => none
  | some rest =>
    let lr := rest.span (fun c => isAsciiLetter c)
    match firstMatchIdx "```".data lr.2 with
    | some j =>
      some ("<div class=\"code-block\"><div class=\"code-lang\">".data ++ lr.1 ++
              "</div><pre>".data ++ lr.2.take j ++ "</pre></div>".data,
            lr.2.drop (j + 3))
    | none => none

def codeBlockGo : Nat → Str → Str
  | _, [] => []
  | 0, s => s
  | n + 1, c :: cs =>
    match codeBlockTry (c :: cs) with
    | some (e, rest) => e ++ codeBlockGo n rest
    | none => c :: codeBlockGo n cs

def codeBlocks (s : Str) : Str := codeBlockGo s.length s

/-- One match of the inline-code pattern (a backtick, one or more
non-backtick characters, a backtick) at the head of `s`. -/
def inlineCodeTry (s : Str) : Option (Str × Str) :=
  match s with
  | '`' :: rest =>
    (match firstMatchIdx ['`'] rest with
     | some j =>
       if 1 ≤ j then
         some ("<code>".data ++ rest.take j ++ "</code>".data, rest.drop (j + 1))
       else none
     | none => none)
  | _ => none

def inlineCodeGo : Nat → Str → Str
  | _, [] => []
  | 0, s => s
  | n + 1, c :: cs =>
    match inlineCodeTry (c :: cs) with
    | some (e, rest) => e ++ inlineCodeGo n rest
    | none => c :: inlineCodeGo n cs

def inlineCode (s : Str) : Str := inlineCodeGo s.length s

/-- The paragraph rule: wrap a non-empty line in `<p>…</p>` unless it
starts with one of the excluded prefixes. -/
def paragraphLine (line : Str) : Str :=
  if line ≠ [] &&
      !(isPrefixB "#".data line || isPrefixB "<h".data line ||
        isPrefixB "<ul".data line || isPrefixB "<ol".data line ||
        isPrefixB "<div class=\"code-block\"".data line || isPrefixB "<p".data line) then
    "<p>".data ++ line ++ "</p>".data
  else line

/-- Global replace of a literal pattern by a literal replacement. -/
def replaceAllLitGo (pat repl : Str) : Nat → Str → Str
  | _, [] => []
  | 0, s => s
  | n + 1, c :: cs =>
    if isPrefixB pat (c :: cs) then repl ++ replaceAllLitGo pat repl n ((c :: cs).drop pat.length)
    else c :: replaceAllLitGo pat repl n cs

def replaceAllLit (pat repl : Str) (s : Str) : Str := replaceAllLitGo pat repl s.length s

/-- The negative lookahead `(?!<\/?[a-z]|$)` of the `<br>` rule (the `$`
part is handled by the caller, which never fires the rule at end of
input). -/
def isTagStartB (r : Str) : Bool :=
  match r with
  | '<' :: '/' :: c :: _ => isLowerAZ c
  | '<' :: c :: _ => isLowerAZ c
  | _ => false

/-- The `/(.+)\n(?!<\/?[a-z]|$)/g → $1<br>` pass: a `\n` preceded by at
least one character on its line is replaced by `<br>` unless it is the
last character or is followed by an opening/closing lowercase tag. -/
def brRuleGo : Nat → Str → Str
  | _, [] => []
  | 0, s => s
  | n + 1, s =>
    let line := s.takeWhile (fun c => c ≠ '\n')
    match s.dropWhile (fun c => c ≠ '\n') with
    | [] => s
    | _ :: rest =>
      line ++
        (if line ≠ [] && !(rest).isEmpty && !isTagStartB rest then "<br>".data else ['\n']) ++
        brRuleGo n rest

def brRule (s : Str) : Str := brRuleGo s.length s

/-- `markdownToHtml` from src/components/FileUpload.tsx: the passes in
source order. -/
def markdownToHtml (markdown : Str) : Str :=
  let h := markdown
  let h := mapLines (mdLineRule "# ".data "<h1>".data "</h1>".data) h
  let h := mapLines (mdLineRule "## ".data "<h2>".data "</h2>".data) h
  let h := mapLines (mdLineRule "### ".data "<h3>".data "</h3>".data) h
  let h := mapLines (mdLineRule "#### ".data "<h4>".data "</h4>".data) h
  let h := mapLines (mdLineRule "##### ".data "<h5>".data "</h5>".data) h
  let h := mapLines (mdLineRule "###### ".data "<h6>".data "</h6>".data) h
  let h := mapLines (mdLineRule "* ".data "<li>".data "</li>".data) h
  let h := mapLines (mdLineRule "- ".data "<li>".data "</li>".data) h
  let h := liJoin h
  let h := liWrap "<ul>".data "</ul>".data h
  let h := mapLines olItemLine h
  let h := liJoin h
  let h := liWrap "<ol>".data "</ol>".data h
  let h := lazyWrap "**".data "**".data "<strong>".data "</strong>".data h
  let h := lazyWrap "__".data "__".data "<strong>".data "</strong>".data h
  let h := lazyWrap "*".data "*".data "<em>".data "</em>".data h
  let h := lazyWrap "_".data "_".data "<em>".data "</em>".data h
  let h := codeBlocks h
  let h := inlineCode h
  let h := mapLines paragraphLine h
  let h := replaceAllLit "<p><p>".data "<p>".data h
  let h := replaceAllLit "</p></p>".data "</p>".data h
  let h := brRule h
  h

/-! ### src/components/FileUpload.tsx — `formatResponse`

The Placeholder Protocol: marker extraction, per-status replacement
fragments, JavaScript `String.prototype.replace` with a string pattern
(first occurrence only, `$`-substitution in the replacement), and the
final `{{…}}` strip. -/

/-- One match of `/{{VISUALIZATION:([a-zA-Z0-9_]+):([^}]+)}}/` at the head
of `s`: returns (id, description, rest). -/
def markerTry (s : Str) : Option (Str × Str × Str) :=
  match lit "\x7b\x7bVISUALIZATION:".data s with
  | none => none
  | some r1 =>
    let idr := r1.span (fun c => isPlaceholderIdChar c)
    if idr.1 ≠ [] then
      match lit ":".data idr.2 with
      | none => none
      | some r3 =>
        let dr := r3.span (fun c => c ≠ '\x7d')
        if dr.1 ≠ [] then
          match lit "\x7d\x7d".data dr.2 with
          | none => none
          | some r5 => some (idr.1, dr.1, r5)
        else none
    else none

def extractPlaceholdersGo : Nat → Str → List (Str × Str)
  | _, [] => []
  | 0, _ => []
  | n + 1, c :: cs =>
    match markerTry (c :: cs) with
    | some (i, d, r) => (i, d) :: extractPlaceholdersGo n r
    | none => extractPlaceholdersGo n cs

/-- The `placeholderRegex.exec` collection loop. -/
def extractPlaceholders (text : Str) : List (Str × Str) :=
  extractPlaceholdersGo text.length text

/-- ECMAScript `GetSubstitution` for a string pattern (no capture groups):
`$$`, `$&`, a `$`-backquote (text before the match) and a `$`-quote (text
after the match) are interpreted; everything else is literal. -/
def getSubstitution (repl matched before after : Str) : Str :=
  match repl with
  | [] => []
  | c :: rest =>
    if c = '$' then
      match rest with
      | '$' :: r => '$' :: getSubstitution r matched before after
      | '&' :: r => matched ++ getSubstitution r matched before after
      | '`' :: r => before ++ getSubstitution r matched before after
      | d :: r =>
        if d = Char.ofNat 39 then after ++ getSubstitution r matched before after
        else '$' :: getSubstitution (d :: r) matched before after
      | [] => ['$']
    else c :: getSubstitution rest matched before after

/-- JavaScript `s.replace(pat, repl)` with string `pat` and `repl`:
replace the first occurrence only. -/
def replaceFirstJS (s pat repl : Str) : Str :=
  match firstMatchIdx pat s with
  | none => s
  | some i =>
    s.take i ++ getSubstitution repl pat (s.take i) (s.drop (i + pat.length)) ++
      s.drop (i + pat.length)

/-- `encodeURIComponent`: unreserved characters pass through, everything
else is percent-encoded per UTF-8 byte (uppercase hex). -/
def isUriUnreserved (c : Char) : Bool :=
  isIdentChar c || c = '-' || c = '_' || c = '.' || c = '!' || c = '~' ||
    c = '*' || c = Char.ofNat 39 || c = '(' || c = ')'

def utf8Bytes (c : Char) : List Nat :=
  let n := c.toNat
  if n < 128 then [n]
  else if n < 2048 then [192 + n / 64, 128 + n % 64]
  else if n < 65536 then [224 + n / 4096, 128 + (n / 64) % 64, 128 + n % 64]
  else [240 + n / 262144, 128 + (n / 4096) % 64, 128 + (n / 64) % 64, 128 + n % 64]

def hexDigit (n : Nat) : Char :=
  if n < 10 then Char.ofNat (48 + n) else Char.ofNat (55 + n)

def percentByte (b : Nat) : Str := ['%', hexDigit (b / 16), hexDigit (b % 16)]

def encodeURIComponent (s : Str) : Str :=
  (s.map (fun c =>
    if isUriUnreserved c then [c]
    else ((utf8Bytes c).map percentByte).flatten)).flatten

/-- The five sequential escapes applied to `visualization.code` before it
is shown in the collapsible panel. -/
def replaceChar (c : Char) (repl : Str) (s : Str) : Str :=
  (s.map (fun d => if d = c then repl else [d])).flatten

def escapedCodeOf (code : Str) : Str :=
  replaceChar (Char.ofNat 39) "&#039;".data
    (replaceChar '"' "&quot;".data
      (replaceChar '>' "&gt;".data
        (replaceChar '<' "&lt;".data
          (replaceChar '&' "&amp;".data code))))

/-- `description.replace(/'/g, "\\'")` in the onclick payloads. -/
def escapeSingleQuotes (s : Str) : Str :=
  replaceChar (Char.ofNat 39) ['\\', Char.ofNat 39] s

/-- The shared onclick attribute value of the three action buttons. -/
def regenerateOnclick (id description : Str) : Str :=
  "window.dispatchEvent(new CustomEvent('regenerate-visualization', \x7b detail: \x7b id: '".data ++
    id ++ "', description: '".data ++ escapeSingleQuotes description ++
    "' \x7d \x7d))".data

def fileDataWarningHtml : Str :=
  "<div class=\"file-data-warning\">Document data not available. Please re-upload the document to regenerate visualizations.</div>".data

/-- The fragment for a marker with no matching artifact. -/
def noVisualizationHtml (id description : Str) (regenerating fileDataAvailable : Bool) : Str :=
  "<div class=\"visualization-placeholder error\">\n          <h4>Visualization: ".data ++
    description ++
    "</h4>\n          <div class=\"placeholder-status error\">\n            <div class=\"error-icon\">⚠️</div>\n            <div>Visual failed to generate</div>\n            <button \n              class=\"retry-button\"\n              onclick=\"".data ++
    regenerateOnclick id description ++
    "\"\n              ".data ++
    (if regenerating then "disabled".data else []) ++
    "\n              ".data ++
    (if !fileDataAvailable then "disabled".data else []) ++
    "\n            >\n              ".data ++
    (if regenerating then "Regenerating...".data else "Generate".data) ++
    "\n            </button>\n            ".data ++
    (if !fileDataAvailable then fileDataWarningHtml else []) ++
    "\n          </div>\n        </div>".data

/-- The fragment for a matching artifact with status `loading`. -/
def loadingHtml (visDescription : Str) : Str :=
  "<div class=\"visualization-placeholder loading\">\n          <h4>Visualization: ".data ++
    visDescription ++
    "</h4>\n          <div class=\"placeholder-status\">\n            <div className=\"spinner\"></div>\n            <span>Loading visualization...</span>\n          </div>\n        </div>".data

/-- The fragment for a matching artifact with status `error`. -/
def errorHtml (id description visDescription : Str) (visError : Option Str)
    (regenerating fileDataAvailable : Bool) : Str :=
  "<div class=\"visualization-placeholder error\">\n          <h4>Visualization: ".data ++
    visDescription ++
    "</h4>\n          <div class=\"placeholder-status error\">\n            <div className=\"error-icon\">⚠️</div>\n            <div>Error: ".data ++
    jsOrStr visError "Failed to load visualization".data ++
    "</div>\n            <button \n              class=\"retry-button\"\n              onclick=\"".data ++
    regenerateOnclick id description ++
    "\"\n              ".data ++
    (if regenerating then "disabled".data else []) ++
    "\n              ".data ++
    (if !fileDataAvailable then "disabled".data else []) ++
    "\n            >\n              ".data ++
    (if regenerating then "Regenerating...".data else "Try Again".data) ++
    "\n            </button>\n            ".data ++
    (if !fileDataAvailable then fileDataWarningHtml else []) ++
    "\n          </div>\n        </div>".data

/-- The fragment for a matching artifact with status `ready`: header with
a Regenerate button, the mount-point element `vis-container-<id>`, and
the collapsible escaped-source panel. -/
def readyHtml (id description : Str) (vis : Visualization)
    (regenerating fileDataAvailable : Bool) : Str :=
  "<div class=\"visualization-placeholder ready\">\n          <div class=\"visualization-header\">\n            <h4>Visualization: ".data ++
    vis.description ++
    "</h4>\n            <button \n              class=\"regenerate-button\"\n              onclick=\"".data ++
    regenerateOnclick id description ++
    "\"\n              ".data ++
    (if regenerating then "disabled".data else []) ++
    "\n              ".data ++
    (if !fileDataAvailable then "disabled".data else []) ++
    "\n            >\n              ".data ++
    (if regenerating then "Regenerating...".data else "Regenerate".data) ++
    "\n            </button>\n          </div>\n          ".data ++
    (if !fileDataAvailable then fileDataWarningHtml else []) ++
    "\n          <div id=\"vis-container-".data ++ vis.id ++
    "\" class=\"embedded-visualization-container\" data-code=\"".data ++
    encodeURIComponent vis.code ++
    "\"></div>\n          <details>\n            <summary>Show Code</summary>\n            <pre style=\"background-color: #f0f0f0; padding: 10px; border-radius: 4px; overflow-x: auto; max-height: 300px;\">".data ++
    escapedCodeOf vis.code ++
    "</pre>\n          </details>\n        </div>".data

/-- `!!(file || cachedFile || (tab && tab.fileData))`: `file`/`cachedFile`
are object presences, `tab.fileData` is string truthiness. -/
def fileDataAvailableOf (file cachedFile : Bool) (tab : Option LearningTab) : Bool :=
  file || cachedFile ||
    (match tab with
     | some t =>
       (match t.fileData with
        | some d => decide (d ≠ [])
        | none => false)
     | none => false)

/-- The per-marker replacement fragment (the `if`/`else if` ladder). -/
def replacementHtmlFor (visualizations : List Visualization) (id description : Str)
    (regenerating fileDataAvailable : Bool) : Str :=
  match visualizations.find? (fun v => v.id == id) with
  | none => noVisualizationHtml id description regenerating fileDataAvailable
  | some visualization =>
    match visualization.status with
    | .loading => loadingHtml visualization.description
    | .error => errorHtml id description visualization.description visualization.error
        regenerating fileDataAvailable
    | .ready => readyHtml id description visualization regenerating fileDataAvailable

/-- One match of the strip pattern `/{{[^}]+}}/` at the head of `s`. -/
def stripTry (s : Str) : Option Str :=
  match lit "\x7b\x7b".data s with
  | none => none
  | some r1 =>
    let br := r1.span (fun c => c ≠ '\x7d')
    if br.1 ≠ [] then
      match lit "\x7d\x7d".data br.2 with
      | none => none
      | some rest => some rest
    else none

def stripBracesGo : Nat → Str → Str
  | _, [] => []
  | 0, s => s
  | n + 1, c :: cs =>
    match stripTry (c :: cs) with
    | some rest => stripBracesGo n rest
    | none => c :: stripBracesGo n cs

/-- The final `formattedText.replace(/{{[^}]+}}/g, '')` pass. -/
def stripBraces (s : Str) : Str := stripBracesGo s.length s

/-- `formatResponse` from src/components/FileUpload.tsx, with the component
state it reads (`learningTabs`, `activeTab`, `file`, `cachedFile`,
`regeneratingVisualizations`) passed explicitly; returns the `__html`
string. -/
def formatResponse (text : Str) (visualizations : List Visualization)
    (learningTabs : List LearningTab) (activeTab : Option Str)
    (file cachedFile : Bool) (regeneratingVisualizations : Str → Bool) : Str :=
  let formattedText := markdownToHtml text
  let tab := match activeTab with
    | none => none
    | some a => learningTabs.find? (fun t => t.id == a)
  let fileDataAvailable := fileDataAvailableOf file cachedFile tab
  let placeholdersInText := extractPlaceholders text
  let formattedText := placeholdersInText.foldl (fun acc pd =>
    let placeholderTag :=
      "\x7b\x7bVISUALIZATION:".data ++ pd.1 ++ ":".data ++ pd.2 ++ "\x7d\x7d".data
    let replacementHtml := replacementHtmlFor visualizations pd.1 pd.2
      (regeneratingVisualizations pd.1) fileDataAvailable
    replaceFirstJS acc placeholderTag replacementHtml) formattedText
  stripBraces formattedText

/-- Count of (possibly overlapping) occurrences of `pat`. -/
def countSub (pat : Str) : Str → Nat
  | [] => 0
  | c :: cs => (if isPrefixB pat (c :: cs) then 1 else 0) + countSub pat cs

/-- Some occurrence of `pat` exists. -/
def containsSub (pat : Str) : Str → Bool
  | [] => false
  | c :: cs => isPrefixB pat (c :: cs) || containsSub pat cs

/-- No `\x7b` is immediately followed by another `\x7b`, and the string
does not end in `\x7b`: then no match of the strip pattern (and no prefix
of one reaching into what follows) can start inside the string. -/
def curlySafe : Str → Bool
  | [] => true
  | ['\x7b'] => false
  | '\x7b' :: '\x7b' :: _ => false
  | _ :: rest => curlySafe rest

/-! ### Concrete sample data used by witnesses and counterexamples -/

def sampleVis1 : Visualization :=
  ⟨"v1".data, "d".data, "x".data, .ready, none⟩

def sampleTab1 : LearningTab :=
  ⟨"1".data, "a".data, "p1".data, [sampleVis1], none⟩

def sampleTab2 : LearningTab :=
  ⟨"2".data, "b".data, "p2".data, [], some "QQ".data⟩

def sampleTabWithBytes : LearningTab :=
  ⟨"1".data, "t".data, "c".data, [], some "AAAA".data⟩

/-- A ready artifact with id `abc`, as in the spec's scenario. -/
def c1Vis : Visualization := ⟨"abc".data, "Sales".data, "x".data, .ready, none⟩

/-- The marker text for `c1Vis`. -/
def c1Tag : Str := "\x7b\x7bVISUALIZATION:abc:Sales\x7d\x7d".data

/-- Prose consisting of the same marker on two lines. -/
def c1TextTwice : Str :=
  "\x7b\x7bVISUALIZATION:abc:Sales\x7d\x7d\n\x7b\x7bVISUALIZATION:abc:Sales\x7d\x7d".data

/-- The mount-point id substring for artifact `abc`. -/
def mountPat : Str := "vis-container-abc".data

/-- The marker text of the spec's no-matching-artifact scenario. -/
def c8Tag : Str := "\x7b\x7bVISUALIZATION:xyz:Missing\x7d\x7d".data

/-- Prose with a single `abc` marker between plain words. -/
def c1TextOnce : Str := "Intro \x7b\x7bVISUALIZATION:abc:Sales\x7d\x7d end".data

/-- Prose with a single `xyz` marker between plain words. -/
def c8TextOnce : Str := "Intro \x7b\x7bVISUALIZATION:xyz:Missing\x7d\x7d end".data

end JAD

/-! ### Lemmas about the embedded string matchers -/

namespace JAD

theorem lit_eq_append {p s r : Str} (h : lit p s = some r) : s = p ++ r := by
  induction p generalizing s with
  | nil => simp [lit] at h; simp [h]
  | cons x xs ih =>
    cases s with
    | nil => simp [lit] at h
    | cons c cs =>
      simp only [lit] at h
      split at h
      · next heq => simpa [heq] using ih h
      · exact absurd h (by simp)

theorem lit_self (p r : Str) : lit p (p ++ r) = some r := by
  induction p with
  | nil => simp [lit]
  | cons x xs ih => simp [lit, ih]

theorem litCI_of_map {p p' : Str} (r : Str)
    (h : p'.map lowerAscii = p.map lowerAscii) : litCI p (p' ++ r) = some r := by
  induction p generalizing p' with
  | nil =>
    cases p' with
    | nil => simp [litCI]
    | cons c cs => simp at h
  | cons x xs ih =>
    cases p' with
    | nil => simp at h
    | cons c cs =>
      simp only [List.map_cons, List.cons.injEq] at h
      simp [litCI, h.1, ih h.2]

theorem wsStar_split : ∀ s : Str, s = (wsStar s).1 ++ (wsStar s).2 := by
  intro s
  induction s with
  | nil => simp [wsStar]
  | cons c cs ih =>
    simp only [wsStar]
    split
    · cases hws : wsStar cs with
      | mk w r => rw [hws] at ih; simpa using ih
    · simp

theorem wsStar_eq {s w r : Str} (h : wsStar s = (w, r)) : s = w ++ r := by
  have := wsStar_split s
  rw [h] at this
  exact this

theorem wsStar_append : ∀ {w : Str}, allWs w →
    ∀ {r : Str}, (∀ c rr, r = c :: rr → isWsJS c = false) → wsStar (w ++ r) = (w, r) := by
  intro w
  induction w with
  | nil =>
    intro _ r hr
    cases r with
    | nil => simp [wsStar]
    | cons c cs => simp [wsStar, hr c cs rfl]
  | cons x xs ih =>
    intro hw r hr
    have hx : isWsJS x = true := hw x (List.mem_cons_self x xs)
    have hxs : allWs xs := fun c hc => hw c (List.mem_cons_of_mem x hc)
    have := ih hxs hr
    simp [wsStar, hx, this]

theorem wsPlus_eq {s w r : Str} (h : wsPlus s = some (w, r)) : s = w ++ r ∧ w ≠ [] := by
  cases s with
  | nil => simp [wsPlus] at h
  | cons c cs =>
    simp only [wsPlus] at h
    split at h
    · cases hws : wsStar cs with
      | mk w' r' =>
        rw [hws] at h
        simp only [Option.some.injEq, Prod.mk.injEq] at h
        have hsplit := wsStar_eq hws
        constructor
        · rw [← h.1, ← h.2]
          simpa using hsplit
        · rw [← h.1]; simp
    · simp at h

theorem wsPlus_append {w : Str} (hw : allWs w) (hne : w ≠ [])
    {r : Str} (hr : ∀ c rr, r = c :: rr → isWsJS c = false) :
    wsPlus (w ++ r) = some (w, r) := by
  cases w with
  | nil => exact absurd rfl hne
  | cons x xs =>
    have hx : isWsJS x = true := hw x (List.mem_cons_self x xs)
    have hxs : allWs xs := fun c hc => hw c (List.mem_cons_of_mem x hc)
    have := wsStar_append hxs hr
    simp [wsPlus, hx, this]

theorem identTail_split : ∀ s : Str, s = (identTail s).1 ++ (identTail s).2 := by
  intro s
  induction s with
  | nil => simp [identTail]
  | cons c cs ih =>
    simp only [identTail]
    split
    · cases hit : identTail cs with
      | mk t r => rw [hit] at ih; simpa using ih
    · simp

theorem identTail_eq {s t r : Str} (h : identTail s = (t, r)) : s = t ++ r := by
  have := identTail_split s
  rw [h] at this
  exact this

theorem upperIdent_eq {s t r : Str} (h : upperIdent s = some (t, r)) :
    s = t ++ r ∧ t ≠ [] := by
  cases s with
  | nil => simp [upperIdent] at h
  | cons c cs =>
    simp only [upperIdent] at h
    split at h
    · cases hit : identTail cs with
      | mk t' r' =>
        rw [hit] at h
        simp only [Option.some.injEq, Prod.mk.injEq] at h
        have hsplit := identTail_eq hit
        constructor
        · rw [← h.1, ← h.2]
          simpa using hsplit
        · rw [← h.1]; simp
    · simp at h

theorem parenScan_eq : ∀ {s q r : Str}, parenScan s = some (q, r) → s = q ++ ')' :: r := by
  intro s
  induction s with
  | nil => intro q r h; simp [parenScan] at h
  | cons c cs ih =>
    intro q r h
    simp only [parenScan] at h
    split at h
    · next hc =>
      simp only [Option.some.injEq, Prod.mk.injEq] at h
      simp [hc, ← h.1, ← h.2]
    · cases hcs : parenScan cs with
      | none => simp [hcs] at h
      | some qr =>
        rw [hcs] at h
        simp only [Option.map_some', Option.some.injEq, Prod.mk.injEq] at h
        have := ih (q := qr.1) (r := qr.2) (by rw [hcs])
        rw [← h.1, ← h.2]
        simp [this]

theorem parenScan_noClose : ∀ {s q r : Str}, parenScan s = some (q, r) → ∀ c ∈ q, c ≠ ')' := by
  intro s
  induction s with
  | nil => intro q r h; simp [parenScan] at h
  | cons c cs ih =>
    intro q r h
    simp only [parenScan] at h
    split at h
    · simp only [Option.some.injEq, Prod.mk.injEq] at h
      intro d hd
      rw [← h.1] at hd
      simp at hd
    · next hc =>
      cases hcs : parenScan cs with
      | none => simp [hcs] at h
      | some qr =>
        rw [hcs] at h
        simp only [Option.map_some', Option.some.injEq, Prod.mk.injEq] at h
        intro d hd
        rw [← h.1] at hd
        rcases List.mem_cons.mp hd with rfl | hd'
        · simpa using hc
        · exact ih (q := qr.1) (r := qr.2) (by rw [hcs]) d hd'

theorem parenScan_append {q : Str} (hq : ∀ c ∈ q, c ≠ ')') (r : Str) :
    parenScan (q ++ ')' :: r) = some (q, r) := by
  induction q with
  | nil => simp [parenScan]
  | cons x xs ih =>
    have hx : x ≠ ')' := hq x (by simp)
    have := ih (fun c hc => hq c (by simp [hc]))
    simp [parenScan, hx, this]

theorem arrowEmptyAlt_eq {x s params w4 r : Str}
    (h : arrowEmptyAlt x s = some (params, w4, r)) :
    s = params ++ w4 ++ x ++ r ∧ params = [] := by
  simp only [arrowEmptyAlt] at h
  cases hl : lit x (wsStar s).2 with
  | none => rw [hl] at h; simp at h
  | some r3 =>
    rw [hl] at h
    simp only [Option.some.injEq, Prod.mk.injEq] at h
    obtain ⟨hp, hw, hr⟩ := h
    have h2 := wsStar_split s
    have h3 := lit_eq_append hl
    refine ⟨?_, hp.symm⟩
    rw [← hp, ← hw, ← hr, List.nil_append]
    have hs : s = (wsStar s).1 ++ (x ++ r3) := by rw [h3] at h2; exact h2
    exact hs.trans (List.append_assoc _ _ _).symm

theorem arrowParamsThen_eq {x s params w4 r : Str}
    (h : arrowParamsThen x s = some (params, w4, r)) :
    s = params ++ w4 ++ x ++ r ∧ paramsOk params := by
  cases s with
  | nil =>
    have := arrowEmptyAlt_eq (by simpa [arrowParamsThen] using h)
    exact ⟨this.1, Or.inl this.2⟩
  | cons c r0 =>
    by_cases hc : c = '('
    · subst hc
      simp only [arrowParamsThen, eq_self_iff_true, if_true] at h
      cases hps : parenScan r0 with
      | none => rw [hps] at h; simp at h
      | some qr =>
        rw [hps] at h
        simp only [] at h
        cases hl : lit x (wsStar qr.2).2 with
        | none => rw [hl] at h; simp at h
        | some r4 =>
          rw [hl] at h
          simp only [Option.some.injEq, Prod.mk.injEq] at h
          obtain ⟨hp, hw, hr⟩ := h
          have h1 := parenScan_eq hps
          have h2 := wsStar_split qr.2
          have h3 := lit_eq_append hl
          constructor
          · rw [← hp, ← hw, ← hr]
            have h2' : qr.2 = (wsStar qr.2).1 ++ (x ++ r4) := by rw [h3] at h2; exact h2
            rw [h1]
            conv_lhs => rw [h2']
            simp [List.append_assoc]
          · exact Or.inr ⟨qr.1, by rw [← hp], parenScan_noClose hps⟩
    · simp only [arrowParamsThen] at h
      rw [if_neg hc] at h
      have := arrowEmptyAlt_eq h
      exact ⟨this.1, Or.inl this.2⟩

theorem matchFnDecl_eq {s t n r : Str} (h : matchFnDecl s = some (t, n, r)) :
    s = t ++ r ∧ t ≠ [] := by
  simp only [matchFnDecl] at h
  split at h
  · simp at h
  next r1 h1 =>
  split at h
  · simp at h
  next wr1 h2 =>
  split at h
  · simp at h
  next nr h3 =>
  split at h
  · simp at h
  next r5 h4 =>
  simp only [Option.some.injEq, Prod.mk.injEq] at h
  obtain ⟨ht, _, hr⟩ := h
  have e1 := lit_eq_append h1
  have e2 := wsPlus_eq (show wsPlus r1 = some (wr1.1, wr1.2) by simp [h2])
  have e3 := upperIdent_eq (show upperIdent wr1.2 = some (nr.1, nr.2) by simp [h3])
  have e4 := wsStar_split nr.2
  have e5 := lit_eq_append h4
  refine ⟨?_, by rw [← ht]; simp⟩
  rw [← ht, ← hr, e1, e2.1]
  conv_lhs => rw [e3.1]
  conv_lhs => rw [e4]
  conv_lhs => rw [e5]
  simp [List.append_assoc]

theorem matchArrowDecl_eq {s t n p r : Str} (h : matchArrowDecl s = some (t, n, p, r)) :
    (s = t ++ r ∧ t ≠ []) ∧ paramsOk p := by
  simp only [matchArrowDecl] at h
  split at h
  · simp at h
  next r1 h1 =>
  split at h
  · simp at h
  next wr1 h2 =>
  split at h
  · simp at h
  next nr h3 =>
  split at h
  · simp at h
  next r5 h4 =>
  split at h
  · simp at h
  next pwr h5 =>
  simp only [Option.some.injEq, Prod.mk.injEq] at h
  obtain ⟨ht, _, hp, hr⟩ := h
  have e1 := lit_eq_append h1
  have e2 := wsPlus_eq (show wsPlus r1 = some (wr1.1, wr1.2) by simp [h2])
  have e3 := upperIdent_eq (show upperIdent wr1.2 = some (nr.1, nr.2) by simp [h3])
  have e4 := wsStar_split nr.2
  have e5 := lit_eq_append h4
  have e6 := wsStar_split r5
  have e7 := arrowParamsThen_eq (h := by rw [h5])
  refine ⟨⟨?_, by rw [← ht]; simp⟩, by rw [← hp]; exact e7.2⟩
  rw [← ht, ← hr, e1, e2.1]
  conv_lhs => rw [e3.1]
  conv_lhs => rw [e4]
  conv_lhs => rw [e5]
  conv_lhs => rw [e6]
  conv_lhs => rw [e7.1]
  simp [List.append_assoc]

theorem matchClassDecl_eq {s t n r : Str} (h : matchClassDecl s = some (t, n, r)) :
    s = t ++ r ∧ t ≠ [] := by
  simp only [matchClassDecl] at h
  split at h
  · simp at h
  next r1 h1 =>
  split at h
  · simp at h
  next wr1 h2 =>
  split at h
  · simp at h
  next nr h3 =>
  split at h
  · simp at h
  next wr2 h4 =>
  split at h
  · simp at h
  next r5 h5 =>
  split at h
  · simp at h
  next wr3 h6 =>
  split at h
  · simp at h
  next r7 h7 =>
  simp only [Option.some.injEq, Prod.mk.injEq] at h
  obtain ⟨ht, _, hr⟩ := h
  have e1 := lit_eq_append h1
  have e2 := wsPlus_eq (show wsPlus r1 = some (wr1.1, wr1.2) by simp [h2])
  have e3 := upperIdent_eq (show upperIdent wr1.2 = some (nr.1, nr.2) by simp [h3])
  have e4 := wsPlus_eq (show wsPlus nr.2 = some (wr2.1, wr2.2) by simp [h4])
  have e5 := lit_eq_append h5
  have e6 := wsPlus_eq (show wsPlus r5 = some (wr3.1, wr3.2) by simp [h6])
  have e7 := lit_eq_append h7
  refine ⟨?_, by rw [← ht]; simp⟩
  rw [← ht, ← hr, e1, e2.1]
  conv_lhs => rw [e3.1]
  conv_lhs => rw [e4.1]
  conv_lhs => rw [e5]
  conv_lhs => rw [e6.1]
  conv_lhs => rw [e7]
  simp [List.append_assoc]

/-! ### The `/i` test accepts each of the three `App` forms -/

theorem hasAppComponent_append {x y : Str} (hy : testAppAt y = true) (hne : y ≠ []) :
    hasAppComponent (x ++ y) = true := by
  induction x with
  | nil =>
    cases y with
    | nil => exact absurd rfl hne
    | cons c cs =>
      rw [List.nil_append]
      simp only [hasAppComponent]
      simp [hy]
  | cons c cs ih =>
    rw [List.cons_append]
    simp only [hasAppComponent]
    simp [ih]

theorem headNotWs_append {a : Str} (hne : a ≠ []) (ha : headNotWs a) (x : Str) :
    headNotWs (a ++ x) := by
  cases a with
  | nil => exact absurd rfl hne
  | cons d ds =>
    intro c rr h
    rw [List.cons_append] at h
    cases h
    exact ha d ds rfl

theorem headNotWs_cons {c : Char} (hc : isWsJS c = false) (x : Str) :
    headNotWs (c :: x) := by
  intro d rr h
  cases h
  exact hc

theorem testFnAppAt_construct {w1 w2 app' : Str} (b : Str)
    (hw1 : allWs w1) (hne : w1 ≠ []) (hw2 : allWs w2)
    (happ : app'.map lowerAscii = "App".data.map lowerAscii)
    (hahd : headNotWs app') (hane : app' ≠ []) :
    testFnAppAt ("function".data ++ (w1 ++ (app' ++ (w2 ++ ('(' :: b))))) = true := by
  have e1 : litCI "function".data
      ("function".data ++ (w1 ++ (app' ++ (w2 ++ ('(' :: b)))))
      = some (w1 ++ (app' ++ (w2 ++ ('(' :: b)))) := litCI_of_map _ rfl
  have e2 : wsPlus (w1 ++ (app' ++ (w2 ++ ('(' :: b))))
      = some (w1, app' ++ (w2 ++ ('(' :: b))) :=
    wsPlus_append hw1 hne (headNotWs_append hane hahd _)
  have e3 : litCI "App".data (app' ++ (w2 ++ ('(' :: b)))
      = some (w2 ++ ('(' :: b)) := litCI_of_map _ happ
  have e4 : wsStar (w2 ++ ('(' :: b)) = (w2, '(' :: b) :=
    wsStar_append hw2 (headNotWs_cons (by decide) b)
  have e5 : lit "(".data ('(' :: b) = some b := by
    have := lit_self "(".data b
    rwa [show "(".data ++ b = '(' :: b from by
      rw [show "(".data = ['('] from by decide]; rfl] at this
  rw [testFnAppAt, e1]
  simp only []
  rw [e2]
  simp only []
  rw [e3]
  simp only []
  rw [e4]
  simp only []
  rw [e5]
  rfl

theorem testArrowAppAt_construct {w1 w2 w3 w4 p app' : Str} (b : Str)
    (hw1 : allWs w1) (hne : w1 ≠ []) (hw2 : allWs w2) (hw3 : allWs w3) (hw4 : allWs w4)
    (hp : paramsOk p) (hpw : p = [] → w4 = [])
    (happ : app'.map lowerAscii = "App".data.map lowerAscii)
    (hahd : headNotWs app') (hane : app' ≠ []) :
    testArrowAppAt ("const".data ++ (w1 ++ (app' ++ (w2 ++
      ('=' :: (w3 ++ (p ++ (w4 ++ ('=' :: '>' :: b))))))))) = true := by
  have e1 : litCI "const".data
      ("const".data ++ (w1 ++ (app' ++ (w2 ++ ('=' :: (w3 ++ (p ++ (w4 ++ ('=' :: '>' :: b)))))))))
      = some (w1 ++ (app' ++ (w2 ++ ('=' :: (w3 ++ (p ++ (w4 ++ ('=' :: '>' :: b)))))))) :=
    litCI_of_map _ rfl
  have e2 := wsPlus_append hw1 hne (headNotWs_append hane hahd
    (w2 ++ ('=' :: (w3 ++ (p ++ (w4 ++ ('=' :: '>' :: b)))))))
  have e3 : litCI "App".data (app' ++ (w2 ++ ('=' :: (w3 ++ (p ++ (w4 ++ ('=' :: '>' :: b)))))))
      = some (w2 ++ ('=' :: (w3 ++ (p ++ (w4 ++ ('=' :: '>' :: b)))))) := litCI_of_map _ happ
  have e4 := wsStar_append hw2
    (headNotWs_cons (c := '=') (by decide) (w3 ++ (p ++ (w4 ++ ('=' :: '>' :: b)))))
  have e5 : litCI "=".data ('=' :: (w3 ++ (p ++ (w4 ++ ('=' :: '>' :: b)))))
      = some (w3 ++ (p ++ (w4 ++ ('=' :: '>' :: b)))) := by
    have := @litCI_of_map "=".data "=".data
      (w3 ++ (p ++ (w4 ++ ('=' :: '>' :: b)))) rfl
    rwa [show "=".data ++ (w3 ++ (p ++ (w4 ++ ('=' :: '>' :: b))))
        = '=' :: (w3 ++ (p ++ (w4 ++ ('=' :: '>' :: b)))) from by
      rw [show "=".data = ['='] from by decide]; rfl] at this
  have hYhead : headNotWs (p ++ (w4 ++ ('=' :: '>' :: b))) := by
    rcases hp with rfl | ⟨q, rfl, hq⟩
    · rw [hpw rfl]
      exact headNotWs_cons (c := '=') (by decide) _
    · rw [List.cons_append]
      exact headNotWs_cons (c := '(') (by decide) _
  have e6 := wsStar_append hw3 hYhead
  have e7 : arrowParamsThen "=>".data (p ++ (w4 ++ ('=' :: '>' :: b))) = some (p, w4, b) := by
    have elit : ∀ z : Str, lit "=>".data ('=' :: '>' :: z) = some z := by
      intro z
      have := lit_self "=>".data z
      rwa [show "=>".data ++ z = '=' :: '>' :: z from by
        rw [show "=>".data = ['=', '>'] from by decide]; rfl] at this
    rcases hp with rfl | ⟨q, rfl, hq⟩
    · rw [hpw rfl]
      rw [List.nil_append, List.nil_append]
      rw [arrowParamsThen]
      rw [if_neg (by decide)]
      rw [arrowEmptyAlt]
      simp only [wsStar]
      rw [if_neg (by decide)]
      simp only []
      rw [elit b]
    · rw [List.cons_append, arrowParamsThen, if_pos rfl]
      have hps : parenScan ((q ++ [')']) ++ (w4 ++ ('=' :: '>' :: b)))
          = some (q, w4 ++ ('=' :: '>' :: b)) := by
        have := parenScan_append hq (w4 ++ ('=' :: '>' :: b))
        rwa [show q ++ ')' :: (w4 ++ ('=' :: '>' :: b))
            = (q ++ [')']) ++ (w4 ++ ('=' :: '>' :: b)) from by simp] at this
      rw [hps]
      simp only []
      rw [wsStar_append hw4 (headNotWs_cons (c := '=') (by decide) _)]
      simp only []
      rw [elit b]
  rw [testArrowAppAt, e1]
  simp only []
  rw [e2]
  simp only []
  rw [e3]
  simp only []
  rw [e4]
  simp only []
  rw [e5]
  simp only []
  rw [e6]
  simp only []
  rw [e7]
  rfl

theorem testClassAppAt_construct {w1 w2 w3 app' : Str} (b : Str)
    (hw1 : allWs w1) (hne1 : w1 ≠ []) (hw2 : allWs w2) (hne2 : w2 ≠ [])
    (hw3 : allWs w3) (hne3 : w3 ≠ [])
    (happ : app'.map lowerAscii = "App".data.map lowerAscii)
    (hahd : headNotWs app') (hane : app' ≠ []) :
    testClassAppAt ("class".data ++ (w1 ++ (app' ++ (w2 ++
      ("extends".data ++ (w3 ++ ("React.Component".data ++ b))))))) = true := by
  have e1 : litCI "class".data
      ("class".data ++ (w1 ++ (app' ++ (w2 ++ ("extends".data ++ (w3 ++ ("React.Component".data ++ b)))))))
      = some (w1 ++ (app' ++ (w2 ++ ("extends".data ++ (w3 ++ ("React.Component".data ++ b)))))) :=
    litCI_of_map _ rfl
  have e2 := wsPlus_append hw1 hne1 (headNotWs_append hane hahd
    (w2 ++ ("extends".data ++ (w3 ++ ("React.Component".data ++ b)))))
  have e3 : litCI "App".data (app' ++ (w2 ++ ("extends".data ++ (w3 ++ ("React.Component".data ++ b)))))
      = some (w2 ++ ("extends".data ++ (w3 ++ ("React.Component".data ++ b)))) :=
    litCI_of_map _ happ
  have hext : headNotWs ("extends".data ++ (w3 ++ ("React.Component".data ++ b))) := by
    rw [show "extends".data = 'e' :: "xtends".data from by decide, List.cons_append]
    exact headNotWs_cons (by decide) _
  have e4 := wsPlus_append hw2 hne2 hext
  have e5 : litCI "extends".data ("extends".data ++ (w3 ++ ("React.Component".data ++ b)))
      = some (w3 ++ ("React.Component".data ++ b)) := litCI_of_map _ rfl
  have hrc : headNotWs ("React.Component".data ++ b) := by
    rw [show "React.Component".data = 'R' :: "eact.Component".data from by decide,
      List.cons_append]
    exact headNotWs_cons (by decide) _
  have e6 := wsPlus_append hw3 hne3 hrc
  have e7 : litCI "React.Component".data ("React.Component".data ++ b) = some b :=
    litCI_of_map _ rfl
  rw [testClassAppAt, e1]
  simp only []
  rw [e2]
  simp only []
  rw [e3]
  simp only []
  rw [e4]
  simp only []
  rw [e5]
  simp only []
  rw [e6]
  simp only []
  rw [e7]
  rfl

/-! ### Each replacement emitted by a pass satisfies the `/i` test -/

theorem hasApp_fnSubst (a b : Str) :
    hasAppComponent (a ++ ("function App(".data ++ b)) = true := by
  have hshape : "function App(".data ++ b
      = "function".data ++ ([' '] ++ ("App".data ++ ([] ++ ('(' :: b)))) := by
    rw [show "function App(".data
        = "function".data ++ ([' '] ++ ("App".data ++ ([] ++ ['(']))) from by decide]
    simp [List.append_assoc]
  rw [hshape]
  apply hasAppComponent_append
  · have := @testFnAppAt_construct [' '] [] "App".data
      b (by intro c hc; simp at hc; subst hc; decide) (by simp)
      (by intro c hc; simp at hc) rfl
      (by intro c rr h; rw [show "App".data = 'A' :: "pp".data from by decide] at h
          cases h; decide)
      (by rw [show "App".data = 'A' :: "pp".data from by decide]; simp)
    rw [testAppAt, this]
    simp
  · rw [show "function".data = 'f' :: "unction".data from by decide]
    simp

theorem hasApp_arrowSubst {p : Str} (hp : paramsOk p) (a b : Str) :
    hasAppComponent (a ++ (("const App = ".data ++ p ++ " =>".data) ++ b)) = true := by
  have happ : ("App".data : Str).map lowerAscii = "App".data.map lowerAscii := rfl
  have hahd : headNotWs ("App".data : Str) := by
    intro c rr h
    rw [show "App".data = 'A' :: "pp".data from by decide] at h
    cases h; decide
  have hane : ("App".data : Str) ≠ [] := by
    rw [show "App".data = 'A' :: "pp".data from by decide]; simp
  rcases hp with rfl | ⟨q, rfl, hq⟩
  · have hshape : ("const App = ".data ++ [] ++ " =>".data) ++ b
        = "const".data ++ ([' '] ++ ("App".data ++ ([' '] ++
            ('=' :: ([' ', ' '] ++ ([] ++ ([] ++ ('=' :: '>' :: b)))))))) := by
      rw [show ("const App = ".data ++ [] ++ " =>".data : Str)
          = "const".data ++ ([' '] ++ ("App".data ++ ([' '] ++
              ('=' :: ([' ', ' '] ++ ([] ++ ([] ++ ['=', '>']))))))) from by decide]
      simp [List.append_assoc]
    rw [hshape]
    apply hasAppComponent_append
    · have := @testArrowAppAt_construct [' '] [' '] [' ', ' ']
        [] [] "App".data b
        (by intro c hc; simp at hc; subst hc; decide)
        (by simp)
        (by intro c hc; simp at hc; subst hc; decide)
        (by intro c hc; simp at hc; subst hc; decide)
        (by intro c hc; simp at hc)
        (Or.inl rfl) (fun _ => rfl) happ hahd hane
      rw [testAppAt, this]
      simp
    · rw [show "const".data = 'c' :: "onst".data from by decide]
      simp
  · have hshape : ("const App = ".data ++ ('(' :: (q ++ [')'])) ++ " =>".data) ++ b
        = "const".data ++ ([' '] ++ ("App".data ++ ([' '] ++
            ('=' :: ([' '] ++ (('(' :: (q ++ [')'])) ++ ([' '] ++ ('=' :: '>' :: b)))))))) := by
      rw [show ("const App = ".data : Str)
          = "const".data ++ ([' '] ++ ("App".data ++ ([' '] ++ ('=' :: [' '])))) from by decide,
        show (" =>".data : Str) = ' ' :: ['=', '>'] from by decide]
      simp [List.append_assoc]
    rw [hshape]
    apply hasAppComponent_append
    · have := @testArrowAppAt_construct [' '] [' '] [' ']
        [' '] ('(' :: (q ++ [')'])) "App".data b
        (by intro c hc; simp at hc; subst hc; decide)
        (by simp)
        (by intro c hc; simp at hc; subst hc; decide)
        (by intro c hc; simp at hc; subst hc; decide)
        (by intro c hc; simp at hc; subst hc; decide)
        (Or.inr ⟨q, rfl, hq⟩) (by simp) happ hahd hane
      rw [testAppAt, this]
      simp
    · rw [show "const".data = 'c' :: "onst".data from by decide]
      simp

theorem hasApp_classSubst (a b : Str) :
    hasAppComponent (a ++ ("class App extends React.Component".data ++ b)) = true := by
  have hshape : "class App extends React.Component".data ++ b
      = "class".data ++ ([' '] ++ ("App".data ++ ([' '] ++
          ("extends".data ++ ([' '] ++ ("React.Component".data ++ b)))))) := by
    rw [show "class App extends React.Component".data
        = "class".data ++ ([' '] ++ ("App".data ++ ([' '] ++
            ("extends".data ++ ([' '] ++ "React.Component".data))))) from by decide]
    simp [List.append_assoc]
  rw [hshape]
  apply hasAppComponent_append
  · have := @testClassAppAt_construct [' '] [' '] [' ']
      "App".data b
      (by intro c hc; simp at hc; subst hc; decide) (by simp)
      (by intro c hc; simp at hc; subst hc; decide) (by simp)
      (by intro c hc; simp at hc; subst hc; decide) (by simp)
      rfl
      (by intro c rr h; rw [show "App".data = 'A' :: "pp".data from by decide] at h
          cases h; decide)
      (by rw [show "App".data = 'A' :: "pp".data from by decide]; simp)
    rw [testAppAt, this]
    simp
  · rw [show "class".data = 'c' :: "lass".data from by decide]
    simp

/-! ### Behaviour of the three global-replace passes -/

theorem replaceFnGo_snd_false : ∀ (n : Nat) (s : Str),
    (replaceFnGo n s).2 = false → (replaceFnGo n s).1 = s := by
  intro n
  induction n with
  | zero =>
    intro s _
    cases s <;> rfl
  | succ n ih =>
    intro s hf
    cases s with
    | nil => rfl
    | cons c cs =>
      simp only [replaceFnGo] at hf ⊢
      cases hm : matchFnDecl (c :: cs) with
      | none =>
        rw [hm] at hf
        simp only [] at hf
        simp [ih cs hf]
      | some tnr =>
        rw [hm] at hf
        simp only [] at hf
        cases hgb : renameGuard tnr.1 tnr.2.1 with
        | true =>
          rw [hgb] at hf
          simp only [if_true, eq_self_iff_true] at hf
          have hsp := (matchFnDecl_eq (show matchFnDecl (c :: cs)
            = some (tnr.1, tnr.2.1, tnr.2.2) by simp [hm])).1
          simp [hgb, ih tnr.2.2 hf, ← hsp]
        | false =>
          rw [hgb] at hf
          simp at hf

theorem replaceFnGo_snd_true : ∀ (n : Nat) (s : Str),
    (replaceFnGo n s).2 = true →
    ∃ a b, (replaceFnGo n s).1 = a ++ ("function App(".data ++ b) := by
  intro n
  induction n with
  | zero =>
    intro s hf
    cases s <;> simp [replaceFnGo] at hf
  | succ n ih =>
    intro s hf
    cases s with
    | nil => simp [replaceFnGo] at hf
    | cons c cs =>
      simp only [replaceFnGo] at hf ⊢
      cases hm : matchFnDecl (c :: cs) with
      | none =>
        rw [hm] at hf
        simp only [] at hf
        obtain ⟨a, b, hab⟩ := ih cs hf
        exact ⟨c :: a, b, by simp [hab]⟩
      | some tnr =>
        rw [hm] at hf
        simp only [] at hf
        cases hgb : renameGuard tnr.1 tnr.2.1 with
        | true =>
          rw [hgb] at hf
          simp only [if_true, eq_self_iff_true] at hf
          obtain ⟨a, b, hab⟩ := ih tnr.2.2 hf
          refine ⟨tnr.1 ++ a, b, ?_⟩
          simp [hgb, hab, List.append_assoc]
        | false =>
          refine ⟨[], (replaceFnGo n tnr.2.2).1, ?_⟩
          have : "function App(".data = ['f', 'u', 'n', 'c', 't', 'i', 'o', 'n', ' ', 'A', 'p', 'p', '('] := by decide
          simp [hgb, this]

theorem replaceArrowGo_cases : ∀ (n : Nat) (s : Str),
    replaceArrowGo n s = s ∨
    ∃ a p b, paramsOk p ∧
      replaceArrowGo n s = a ++ (("const App = ".data ++ p ++ " =>".data) ++ b) := by
  intro n
  induction n with
  | zero =>
    intro s
    cases s <;> exact Or.inl rfl
  | succ n ih =>
    intro s
    cases s with
    | nil => exact Or.inl rfl
    | cons c cs =>
      simp only [replaceArrowGo]
      cases hm : matchArrowDecl (c :: cs) with
      | none =>
        rcases ih cs with hcs | ⟨a, p, b, hp, hab⟩
        · exact Or.inl (by rw [hcs])
        · exact Or.inr ⟨c :: a, p, b, hp, by rw [hab]; rfl⟩
      | some tnp =>
        have hspec := matchArrowDecl_eq (show matchArrowDecl (c :: cs)
          = some (tnp.1, tnp.2.1, tnp.2.2.1, tnp.2.2.2) by simp [hm])
        cases hgb : renameGuard tnp.1 tnp.2.1 with
        | true =>
          rcases ih tnp.2.2.2 with hr | ⟨a, p, b, hp, hab⟩
          · refine Or.inl ?_
            simp only [hgb, if_true, eq_self_iff_true]
            rw [hr]
            exact hspec.1.1.symm
          · refine Or.inr ⟨tnp.1 ++ a, p, b, hp, ?_⟩
            simp only [hgb, if_true, eq_self_iff_true]
            rw [hab]
            simp [List.append_assoc]
        | false =>
          refine Or.inr ⟨[], tnp.2.2.1, replaceArrowGo n tnp.2.2.2, hspec.2, ?_⟩
          simp [hgb, List.append_assoc]

theorem replaceClassGo_cases : ∀ (n : Nat) (s : Str),
    replaceClassGo n s = s ∨
    ∃ a b, replaceClassGo n s = a ++ ("class App extends React.Component".data ++ b) := by
  intro n
  induction n with
  | zero =>
    intro s
    cases s <;> exact Or.inl rfl
  | succ n ih =>
    intro s
    cases s with
    | nil => exact Or.inl rfl
    | cons c cs =>
      simp only [replaceClassGo]
      cases hm : matchClassDecl (c :: cs) with
      | none =>
        rcases ih cs with hcs | ⟨a, b, hab⟩
        · exact Or.inl (by rw [hcs])
        · exact Or.inr ⟨c :: a, b, by rw [hab]; rfl⟩
      | some tnr =>
        have hspec := matchClassDecl_eq (show matchClassDecl (c :: cs)
          = some (tnr.1, tnr.2.1, tnr.2.2) by simp [hm])
        cases hgb : renameGuard tnr.1 tnr.2.1 with
        | true =>
          rcases ih tnr.2.2 with hr | ⟨a, b, hab⟩
          · refine Or.inl ?_
            simp only [hgb, if_true, eq_self_iff_true]
            rw [hr]
            exact hspec.1.symm
          · refine Or.inr ⟨tnr.1 ++ a, b, ?_⟩
            simp only [hgb, if_true, eq_self_iff_true]
            rw [hab]
            simp [List.append_assoc]
        | false =>
          refine Or.inr ⟨[], replaceClassGo n tnr.2.2, ?_⟩
          simp [hgb]

theorem renameComponentToApp_of_hasApp {code : Str} (h : hasAppComponent code = true) :
    renameComponentToApp code = code := by
  simp [renameComponentToApp, h]

theorem renameComponentToApp_unfold {code : Str} (h : hasAppComponent code = false) :
    renameComponentToApp code
      = replaceClasses (if (replaceFnDecls code).2 then (replaceFnDecls code).1
          else replaceArrows (replaceFnDecls code).1) := by
  cases hfd : replaceFnDecls code with
  | mk s1 fm => simp [renameComponentToApp, h, hfd]

theorem renameComponentToApp_result {code : Str} (h : hasAppComponent code = false) :
    renameComponentToApp code = code ∨
    hasAppComponent (renameComponentToApp code) = true := by
  have hdef := renameComponentToApp_unfold h
  cases hfm : (replaceFnDecls code).2 with
  | false =>
    have hs1 : (replaceFnDecls code).1 = code :=
      replaceFnGo_snd_false code.length code hfm
    rw [hfm] at hdef
    simp only [Bool.false_eq_true, if_false] at hdef
    rw [hs1] at hdef
    rcases replaceArrowGo_cases code.length code with har | ⟨a, p, b, hp, har⟩
    · have har' : replaceArrows code = code := har
      rw [har'] at hdef
      rcases replaceClassGo_cases code.length code with hcl | ⟨a2, b2, hcl⟩
      · have hcl' : replaceClasses code = code := hcl
        rw [hcl'] at hdef
        exact Or.inl hdef
      · have hcl' : replaceClasses code
            = a2 ++ ("class App extends React.Component".data ++ b2) := hcl
        rw [hcl'] at hdef
        exact Or.inr (by rw [hdef]; exact hasApp_classSubst a2 b2)
    · have har' : replaceArrows code
          = a ++ (("const App = ".data ++ p ++ " =>".data) ++ b) := har
      rcases replaceClassGo_cases (replaceArrows code).length (replaceArrows code) with
        hcl | ⟨a2, b2, hcl⟩
      · have hcl' : replaceClasses (replaceArrows code) = replaceArrows code := hcl
        rw [hcl', har'] at hdef
        exact Or.inr (by rw [hdef]; exact hasApp_arrowSubst hp a b)
      · have hcl' : replaceClasses (replaceArrows code)
            = a2 ++ ("class App extends React.Component".data ++ b2) := hcl
        rw [hcl'] at hdef
        exact Or.inr (by rw [hdef]; exact hasApp_classSubst a2 b2)
  | true =>
    obtain ⟨a, b, hab⟩ := replaceFnGo_snd_true code.length code hfm
    have hab' : (replaceFnDecls code).1 = a ++ ("function App(".data ++ b) := hab
    rw [hfm] at hdef
    simp only [if_true] at hdef
    rcases replaceClassGo_cases (replaceFnDecls code).1.length (replaceFnDecls code).1 with
      hcl | ⟨a2, b2, hcl⟩
    · have hcl' : replaceClasses (replaceFnDecls code).1 = (replaceFnDecls code).1 := hcl
      rw [hcl', hab'] at hdef
      exact Or.inr (by rw [hdef]; exact hasApp_fnSubst a b)
    · have hcl' : replaceClasses (replaceFnDecls code).1
          = a2 ++ ("class App extends React.Component".data ++ b2) := hcl
      rw [hcl'] at hdef
      exact Or.inr (by rw [hdef]; exact hasApp_classSubst a2 b2)

theorem app_headNotWs : headNotWs ("App".data : Str) := by
  intro c rr h
  rw [show "App".data = 'A' :: "pp".data from by decide] at h
  cases h
  decide

theorem app_ne_nil : ("App".data : Str) ≠ [] := by
  rw [show "App".data = 'A' :: "pp".data from by decide]
  simp

theorem lowapp_headNotWs : headNotWs ("app".data : Str) := by
  intro c rr h
  rw [show "app".data = 'a' :: "pp".data from by decide] at h
  cases h
  decide

theorem lowapp_ne_nil : ("app".data : Str) ≠ [] := by
  rw [show "app".data = 'a' :: "pp".data from by decide]
  simp

theorem hasApp_of_fnDecl {code a w1 w2 b app' : Str}
    (hw1 : allWs w1) (hne : w1 ≠ []) (hw2 : allWs w2)
    (happ : app'.map lowerAscii = "App".data.map lowerAscii)
    (hahd : headNotWs app') (hane : app' ≠ [])
    (hcode : code = a ++ "function".data ++ w1 ++ app' ++ w2 ++ "(".data ++ b) :
    hasAppComponent code = true := by
  subst hcode
  rw [show ("(".data : Str) = ['('] from by decide]
  simp only [List.singleton_append, List.append_assoc]
  apply hasAppComponent_append (y := "function".data ++ (w1 ++ (app' ++ (w2 ++ ('(' :: b)))))
  · rw [testAppAt, testFnAppAt_construct b hw1 hne hw2 happ hahd hane]
    simp
  · rw [show "function".data = 'f' :: "unction".data from by decide]
    simp

theorem hasApp_of_arrowDecl {code a w1 w2 w3 p w4 b app' : Str}
    (hw1 : allWs w1) (hne : w1 ≠ []) (hw2 : allWs w2) (hw3 : allWs w3) (hw4 : allWs w4)
    (hp : paramsOk p) (hpw : p = [] → w4 = [])
    (happ : app'.map lowerAscii = "App".data.map lowerAscii)
    (hahd : headNotWs app') (hane : app' ≠ [])
    (hcode : code = a ++ "const".data ++ w1 ++ app' ++ w2 ++ "=".data ++ w3 ++
      p ++ w4 ++ "=>".data ++ b) :
    hasAppComponent code = true := by
  subst hcode
  have hsh : a ++ "const".data ++ w1 ++ app' ++ w2 ++ "=".data ++ w3 ++ p ++ w4 ++ "=>".data ++ b
      = a ++ ("const".data ++ (w1 ++ (app' ++ (w2 ++
          ('=' :: (w3 ++ (p ++ (w4 ++ ('=' :: '>' :: b))))))))) := by
    rw [show ("=".data : Str) = ['='] from by decide,
      show ("=>".data : Str) = ['=', '>'] from by decide]
    simp [List.append_assoc]
  rw [hsh]
  apply hasAppComponent_append
  · rw [testAppAt, testArrowAppAt_construct b hw1 hne hw2 hw3 hw4 hp hpw happ hahd hane]
    simp
  · rw [show "const".data = 'c' :: "onst".data from by decide]
    simp

theorem hasApp_of_classDecl {code a w1 w2 w3 b app' : Str}
    (hw1 : allWs w1) (hne1 : w1 ≠ []) (hw2 : allWs w2) (hne2 : w2 ≠ [])
    (hw3 : allWs w3) (hne3 : w3 ≠ [])
    (happ : app'.map lowerAscii = "App".data.map lowerAscii)
    (hahd : headNotWs app') (hane : app' ≠ [])
    (hcode : code = a ++ "class".data ++ w1 ++ app' ++ w2 ++ "extends".data ++ w3 ++
      "React.Component".data ++ b) :
    hasAppComponent code = true := by
  subst hcode
  have hsh : a ++ "class".data ++ w1 ++ app' ++ w2 ++ "extends".data ++ w3 ++
        "React.Component".data ++ b
      = a ++ ("class".data ++ (w1 ++ (app' ++ (w2 ++
          ("extends".data ++ (w3 ++ ("React.Component".data ++ b))))))) := by
    simp [List.append_assoc]
  rw [hsh]
  apply hasAppComponent_append
  · rw [testAppAt, testClassAppAt_construct b hw1 hne1 hw2 hne2 hw3 hne3 happ hahd hane]
    simp
  · rw [show "class".data = 'c' :: "lass".data from by decide]
    simp

/-! ### Claim theorems for the Code Normalizer -/

/-- C2: the Code Normalizer is idempotent — for every input source string
`s`, `renameComponentToApp (renameComponentToApp s) = renameComponentToApp s`. -/
theorem claim_C2_normalizer_idempotent (code : Str) :
    renameComponentToApp (renameComponentToApp code) = renameComponentToApp code := by
  by_cases h : hasAppComponent code = true
  · rw [renameComponentToApp_of_hasApp h]
    exact renameComponentToApp_of_hasApp h
  · have h' : hasAppComponent code = false := by
      cases hb : hasAppComponent code
      · rfl
      · exact absurd hb h
    rcases renameComponentToApp_result h' with hc | happ
    · rw [hc]
      exact hc
    · exact renameComponentToApp_of_hasApp happ

/-- C3 counterexample: the claim "at most one of the three renaming
categories is applied — the first category that matches — and the other
categories leave the source unchanged" is false.  On an input containing
both an uppercase function declaration and an uppercase class declaration
extending `React.Component`, the function category matches first, yet the
class category is also applied: both `Foo` and `Bar` are renamed to `App`.
The claimed behaviour (only `Foo` renamed, `Bar` untouched) does not hold. -/
theorem claim_C3_counterexample :
    renameComponentToApp "function Foo() x\nclass Bar extends React.Component y".data
      = "function App() x\nclass App extends React.Component y".data ∧
    renameComponentToApp "function Foo() x\nclass Bar extends React.Component y".data
      ≠ "function App() x\nclass Bar extends React.Component y".data := by
  constructor
  · decide
  · decide

/-- C3 (amended): when the source does not already declare the entry name,
at most one of the first two categories is applied — a function-declaration
rename suppresses the arrow-function category (which otherwise runs on the
unchanged source) — but the class category is applied unconditionally
afterwards and may rename a class in addition. -/
theorem claim_C3_amended_first_two_categories (code : Str)
    (h : hasAppComponent code = false) :
    renameComponentToApp code
      = replaceClasses (if (replaceFnDecls code).2 then (replaceFnDecls code).1
          else replaceArrows code) ∧
    ((replaceFnDecls code).2 = false → (replaceFnDecls code).1 = code) := by
  have hsnd := replaceFnGo_snd_false code.length code
  constructor
  · have hdef := renameComponentToApp_unfold h
    cases hfm : (replaceFnDecls code).2 with
    | false =>
      rw [hfm] at hdef
      simp only [Bool.false_eq_true, if_false] at hdef ⊢
      have hs1 : (replaceFnDecls code).1 = code := hsnd hfm
      rw [hs1] at hdef
      exact hdef
    | true =>
      rw [hfm] at hdef
      simp only [if_true] at hdef ⊢
      exact hdef
  · exact hsnd

/-- Witness for the amended C3 at a concrete input: the check fails, the
function category matches, and the normalizer output equals the class pass
applied to the function pass's output. -/
theorem claim_C3_amended_witness :
    hasAppComponent "function Foo() x\nclass Bar extends React.Component y".data = false ∧
    (renameComponentToApp "function Foo() x\nclass Bar extends React.Component y".data
      = replaceClasses
          (if (replaceFnDecls "function Foo() x\nclass Bar extends React.Component y".data).2
           then (replaceFnDecls "function Foo() x\nclass Bar extends React.Component y".data).1
           else replaceArrows "function Foo() x\nclass Bar extends React.Component y".data) ∧
     ((replaceFnDecls "function Foo() x\nclass Bar extends React.Component y".data).2 = false →
      (replaceFnDecls "function Foo() x\nclass Bar extends React.Component y".data).1
        = "function Foo() x\nclass Bar extends React.Component y".data)) :=
  ⟨by decide,
   claim_C3_amended_first_two_categories
     "function Foo() x\nclass Bar extends React.Component y".data (by decide)⟩

/-- C6: for every source in which a component named `App` already exists —
as a function declaration, an arrow-function const assignment, or a class
extending `React.Component`, with the whitespace freedom the check's regex
allows — the Code Normalizer returns its input unchanged, byte for byte. -/
theorem claim_C6_app_already_present (code : Str) (h : AppDeclPresent code) :
    renameComponentToApp code = code := by
  apply renameComponentToApp_of_hasApp
  rcases h with ⟨a, w1, w2, b, hw1, hne, hw2, hcode⟩ |
    ⟨a, w1, w2, w3, p, w4, b, hw1, hne, hw2, hw3, hw4, hp, hpw, hcode⟩ |
    ⟨a, w1, w2, w3, b, hw1, hne1, hw2, hne2, hw3, hne3, hcode⟩
  · exact hasApp_of_fnDecl hw1 hne hw2 rfl app_headNotWs app_ne_nil hcode
  · exact hasApp_of_arrowDecl hw1 hne hw2 hw3 hw4 hp hpw rfl app_headNotWs app_ne_nil hcode
  · exact hasApp_of_classDecl hw1 hne1 hw2 hne2 hw3 hne3 rfl app_headNotWs app_ne_nil hcode

/-- Witness for C6 at a concrete input: `function App() x` is one of the
recognised forms and the Normalizer leaves it unchanged. -/
theorem claim_C6_witness :
    AppDeclPresent "function App() x".data ∧
    renameComponentToApp "function App() x".data = "function App() x".data := by
  have hpres : AppDeclPresent "function App() x".data :=
    Or.inl ⟨[], [' '], [], ") x".data,
      by intro c hc; simp at hc; subst hc; decide,
      by decide,
      by intro c hc; simp at hc,
      by decide⟩
  exact ⟨hpres, claim_C6_app_already_present _ hpres⟩

/-- C9: the already-has-entry-point check is case-insensitive — a source
containing a lowercase `function app(` declaration is returned unchanged,
whatever else (including otherwise-renameable uppercase components) the
source contains. -/
theorem claim_C9_check_case_insensitive (a w1 w2 b : Str)
    (hw1 : allWs w1) (hne : w1 ≠ []) (hw2 : allWs w2) :
    renameComponentToApp (a ++ "function".data ++ w1 ++ "app".data ++ w2 ++ "(".data ++ b)
      = a ++ "function".data ++ w1 ++ "app".data ++ w2 ++ "(".data ++ b := by
  apply renameComponentToApp_of_hasApp
  exact hasApp_of_fnDecl hw1 hne hw2 (by decide) lowapp_headNotWs lowapp_ne_nil rfl

/-- Witness for C9 at a concrete input containing an uppercase component
(`Foo`) that would otherwise be renamed: the lowercase `function app(`
makes the case-insensitive check fire and the source is unchanged. -/
theorem claim_C9_witness :
    renameComponentToApp
        ([] ++ "function".data ++ [' '] ++ "app".data ++ [] ++ "(".data ++
          ") y\nfunction Foo() x".data)
      = [] ++ "function".data ++ [' '] ++ "app".data ++ [] ++ "(".data ++
          ") y\nfunction Foo() x".data :=
  claim_C9_check_case_insensitive [] [' '] [] ") y\nfunction Foo() x".data
    (by intro c hc; simp at hc; subst hc; decide) (by decide)
    (by intro c hc; simp at hc)

/-! ### Claim theorems for the Artifact Store and Session State -/

theorem restoreVis_encodeVis (v : Visualization) : restoreVis (encodeVis v) = v := by
  cases v with
  | mk id desc code status err =>
    simp only [encodeVis, restoreVis, jsOrStr]
    cases status <;> simp [statusToString, statusOfString]

theorem restoreTab_encodeTab (t : LearningTab) : restoreTab (encodeTab t) = t := by
  cases t with
  | mk id title content vis fd =>
    simp only [encodeTab, restoreTab, List.map_map]
    have hvis : List.map (restoreVis ∘ encodeVis) vis = vis := by
      induction vis with
      | nil => rfl
      | cons v vs ih => simp [Function.comp, restoreVis_encodeVis, ih]
    rw [hvis]

/-- C4: on a quota-exceeded failure of the first write of the session list,
the save is retried exactly once, with the cached document bytes
(`fileData`) stripped from every session in the retried payload; the
one-time notice (`alert`) fires exactly when the retry succeeds, and if the
retry also fails the function just returns `false` with nothing stored —
there is no third attempt. -/
theorem claim_C4_quota_strip_retry (data : List LearningTab) (o2 : SetOutcome) :
    (saveToLocalStorage "learningTabs".data data .quota o2).attempts
        = [encodeTabs data,
           encodeTabs (data.map (fun tab => { tab with fileData := none }))] ∧
    (∀ st ∈ encodeTabs (data.map (fun tab => { tab with fileData := none })),
        st.fileData = none) ∧
    ((saveToLocalStorage "learningTabs".data data .quota o2).alerted = true ↔ o2 = .ok) ∧
    (o2 ≠ .ok →
      (saveToLocalStorage "learningTabs".data data .quota o2).returned = false ∧
      (saveToLocalStorage "learningTabs".data data .quota o2).stored = none) := by
  refine ⟨?_, ?_, ?_, ?_⟩
  · cases o2 <;> simp [saveToLocalStorage]
  · intro st hst
    simp only [encodeTabs, List.map_map, List.mem_map] at hst
    obtain ⟨tab, -, rfl⟩ := hst
    rfl
  · cases o2 <;> simp [saveToLocalStorage]
  · intro hne
    cases o2 with
    | ok => exact absurd rfl hne
    | quota => simp [saveToLocalStorage]
    | err => simp [saveToLocalStorage]

/-- Witness for C4 at a concrete session list (one session carrying cached
bytes) and a failing retry. -/
theorem claim_C4_witness :
    (saveToLocalStorage "learningTabs".data [sampleTabWithBytes] .quota .err).attempts
        = [encodeTabs [sampleTabWithBytes],
           encodeTabs ([sampleTabWithBytes].map (fun tab => { tab with fileData := none }))] ∧
    (∀ st ∈ encodeTabs ([sampleTabWithBytes].map (fun tab => { tab with fileData := none })),
        st.fileData = none) ∧
    ((saveToLocalStorage "learningTabs".data [sampleTabWithBytes] .quota .err).alerted = true ↔
        SetOutcome.err = SetOutcome.ok) ∧
    (SetOutcome.err ≠ SetOutcome.ok →
      (saveToLocalStorage "learningTabs".data [sampleTabWithBytes] .quota .err).returned
          = false ∧
      (saveToLocalStorage "learningTabs".data [sampleTabWithBytes] .quota .err).stored
          = none) :=
  claim_C4_quota_strip_retry [sampleTabWithBytes] .err

/-- C5: persisting a non-empty session list (a successful write of the
single stored entry) and then restoring it yields the same sessions —
same prose, same artifact lists — and activates the most recently added
session; independently, an artifact stored without a status field is
restored with status `ready`. -/
theorem claim_C5_round_trip (tabs : List LearningTab) (h : tabs ≠ []) (o2 : SetOutcome) :
    loadSavedTabs (saveTabsEffect tabs .ok o2 none)
      = { learningTabs := tabs,
          activeTab := some (tabs.getLast h).id,
          view := .content } ∧
    (∀ sv : StoredVis, sv.status = none → (restoreVis sv).status = .ready) := by
  constructor
  · have hlen : tabs.length > 0 := List.length_pos.mpr h
    have hsave : saveTabsEffect tabs .ok o2 none = some (encodeTabs tabs) := by
      simp [saveTabsEffect, hlen, saveToLocalStorage]
    rw [hsave]
    have hrestore : (encodeTabs tabs).map restoreTab = tabs := by
      simp only [encodeTabs, List.map_map]
      have : restoreTab ∘ encodeTab = id := by
        funext t
        simp [Function.comp, restoreTab_encodeTab]
      simp [this]
    simp only [loadSavedTabs, hrestore]
    rw [if_pos hlen]
    have hlast : tabs.getLast? = some (tabs.getLast h) := List.getLast?_eq_getLast tabs h
    simp [hlast]
  · intro sv hsv
    simp [restoreVis, jsOrStr, hsv, statusOfString]

/-- Witness for C5 at a concrete two-session list (a failing second
outcome is irrelevant after a successful first write). -/
theorem claim_C5_witness :
    ([sampleTab1, sampleTab2] : List LearningTab) ≠ [] ∧
    (loadSavedTabs (saveTabsEffect [sampleTab1, sampleTab2] .ok .err none)
      = { learningTabs := [sampleTab1, sampleTab2],
          activeTab := some (([sampleTab1, sampleTab2] : List LearningTab).getLast
            (by decide)).id,
          view := .content } ∧
     (∀ sv : StoredVis, sv.status = none → (restoreVis sv).status = .ready)) :=
  ⟨by decide, claim_C5_round_trip [sampleTab1, sampleTab2] (by decide) .err⟩

/-- C7: a session created from a file at or above the 5 MB threshold never
carries cached source bytes — they are withheld when the session is built,
and are still absent after an encode/restore (save/restore) cycle. -/
theorem claim_C7_size_threshold (newTabId fileName : Str) (fileSize : Nat)
    (base64Data paperContent : Str) (evs : List ExtractedVis)
    (h : 5 * 1024 * 1024 ≤ fileSize) :
    (handleBeginLearningNewTab newTabId fileName fileSize base64Data paperContent evs).fileData
      = none ∧
    (restoreTab (encodeTab
        (handleBeginLearningNewTab newTabId fileName fileSize base64Data paperContent evs))).fileData
      = none := by
  have hno : (handleBeginLearningNewTab newTabId fileName fileSize base64Data
      paperContent evs).fileData = none := by
    simp [handleBeginLearningNewTab, Nat.not_lt.mpr h]
  exact ⟨hno, by simp [restoreTab, encodeTab, hno]⟩

/-- Witness for C7 at exactly the 5 MB boundary. -/
theorem claim_C7_witness :
    5 * 1024 * 1024 ≤ 5 * 1024 * 1024 ∧
    ((handleBeginLearningNewTab "1".data "f.pdf".data (5 * 1024 * 1024) "QkFTRTY0".data
        "prose".data []).fileData = none ∧
     (restoreTab (encodeTab (handleBeginLearningNewTab "1".data "f.pdf".data
        (5 * 1024 * 1024) "QkFTRTY0".data "prose".data []))).fileData = none) :=
  ⟨le_refl _,
   claim_C7_size_threshold "1".data "f.pdf".data (5 * 1024 * 1024) "QkFTRTY0".data
     "prose".data [] (le_refl _)⟩

/-- C10: the regeneration state update is a frame update — the number of
sessions and each session's artifact count are preserved, and any session
whose artifact list contains no artifact with the regenerated id (in
particular every non-active session) is left unchanged; no artifact is
ever added. -/
theorem claim_C10_regeneration_frame (prevTabs : List LearningTab)
    (activeTab visId : Str) (upd : Visualization) :
    (regenerateUpdateTabs prevTabs activeTab visId upd).length = prevTabs.length ∧
    ∀ i (hi : i < prevTabs.length)
      (hi2 : i < (regenerateUpdateTabs prevTabs activeTab visId upd).length),
      (regenerateUpdateTabs prevTabs activeTab visId upd)[i].visualizations.length
        = prevTabs[i].visualizations.length ∧
      (prevTabs[i].id ≠ activeTab ∨ (∀ v ∈ prevTabs[i].visualizations, v.id ≠ visId) →
        (regenerateUpdateTabs prevTabs activeTab visId upd)[i] = prevTabs[i]) := by
  constructor
  · simp [regenerateUpdateTabs]
  · intro i hi hi2
    have hget : (regenerateUpdateTabs prevTabs activeTab visId upd)[i]
        = (fun tab =>
            if tab.id = activeTab then
              { tab with visualizations := tab.visualizations.map (fun v =>
                  if v.id = visId then upd else v) }
            else tab) prevTabs[i] := by
      simp [regenerateUpdateTabs]
    rw [hget]
    constructor
    · by_cases hid : prevTabs[i].id = activeTab <;> simp [hid]
    · intro hcase
      rcases hcase with hid | hvis
      · simp [hid]
      · have hmapid : ∀ l : List Visualization, (∀ v ∈ l, v.id ≠ visId) →
            l.map (fun v => if v.id = visId then upd else v) = l := by
          intro l hl
          induction l with
          | nil => rfl
          | cons x xs ih =>
            rw [List.map_cons, if_neg (hl x (List.mem_cons_self x xs)),
              ih (fun v hv => hl v (List.mem_cons_of_mem x hv))]
        by_cases hid : prevTabs[i].id = activeTab
        · simp only [hid, if_true, eq_self_iff_true]
          rw [hmapid _ hvis, ← hid]
        · simp [hid]

/-- Witness for C10: in a two-session list where the first session has no
artifact with the regenerated id, the update leaves that session untouched. -/
theorem claim_C10_witness :
    (∀ v ∈ (([sampleTab1, sampleTab2] : List LearningTab).get ⟨0, by decide⟩).visualizations,
        v.id ≠ "abc".data) ∧
    (regenerateUpdateTabs [sampleTab1, sampleTab2] "2".data "abc".data sampleVis1).get
        ⟨0, by decide⟩
      = ([sampleTab1, sampleTab2] : List LearningTab).get ⟨0, by decide⟩ := by
  refine ⟨by decide, ?_⟩
  exact ((claim_C10_regeneration_frame [sampleTab1, sampleTab2] "2".data "abc".data
    sampleVis1).2 0 (by decide) (by decide)).2 (Or.inr (by decide))

/-! ### Prefix, occurrence-count and first-match lemmas -/

theorem isPrefixB_iff {p s : Str} : isPrefixB p s = true ↔ ∃ r, s = p ++ r := by
  constructor
  · intro h
    cases hl : lit p s with
    | none => rw [isPrefixB, hl] at h; simp at h
    | some r => exact ⟨r, lit_eq_append hl⟩
  · rintro ⟨r, rfl⟩
    rw [isPrefixB, lit_self]
    rfl

theorem isPrefixB_length_le {p s : Str} (h : isPrefixB p s = true) : p.length ≤ s.length := by
  obtain ⟨r, rfl⟩ := isPrefixB_iff.mp h
  simp

theorem isPrefixB_cons_cons {a : Char} {ps : Str} {c : Char} {cs : Str} :
    isPrefixB (a :: ps) (c :: cs) = if c = a then isPrefixB ps cs else false := by
  by_cases hc : c = a <;> simp [isPrefixB, lit, hc]

theorem isPrefixB_append_of_le : ∀ {p x : Str}, p.length ≤ x.length → ∀ (y : Str),
    isPrefixB p (x ++ y) = isPrefixB p x := by
  intro p
  induction p with
  | nil => intro x _ y; simp [isPrefixB, lit]
  | cons a ps ih =>
    intro x hlen y
    cases x with
    | nil => simp at hlen
    | cons c cs =>
      rw [List.cons_append, isPrefixB_cons_cons, isPrefixB_cons_cons]
      by_cases hc : c = a
      · rw [if_pos hc, if_pos hc, ih (by simpa using hlen)]
      · rw [if_neg hc, if_neg hc]

theorem isPrefixB_append_split : ∀ {p x : Str}, x.length < p.length → ∀ {y : Str},
    isPrefixB p (x ++ y) = true →
    x = p.take x.length ∧ isPrefixB (p.drop x.length) y = true := by
  intro p
  induction p with
  | nil => intro x hlen; simp at hlen
  | cons a ps ih =>
    intro x hlen y h
    cases x with
    | nil => exact ⟨rfl, by simpa using h⟩
    | cons c cs =>
      rw [List.cons_append, isPrefixB_cons_cons] at h
      by_cases hc : c = a
      · rw [if_pos hc] at h
        have := ih (by simpa using hlen) h
        refine ⟨?_, ?_⟩
        · simp only [List.length_cons, List.take_succ_cons, hc]
          rw [← this.1]
        · simpa using this.2
      · rw [if_neg hc] at h
        simp at h

theorem isPrefixB_cons_head {p0 : Char} {ps : Str} {d : Char} {ys : Str}
    (h : isPrefixB (p0 :: ps) (d :: ys) = true) : d = p0 := by
  rw [isPrefixB_cons_cons] at h
  by_cases hc : d = p0
  · exact hc
  · rw [if_neg hc] at h; simp at h

theorem countSub_append_gen {pat : Str} : ∀ (x y : Str),
    (∀ z : Str, z ≠ [] → z.length < pat.length → z <:+ x →
      isPrefixB pat (z ++ y) = false) →
    countSub pat (x ++ y) = countSub pat x + countSub pat y := by
  intro x
  induction x with
  | nil => intro y _; simp [countSub]
  | cons c x' ih =>
    intro y h
    rw [List.cons_append]
    simp only [countSub]
    rw [ih y (fun z hz hlen hsuf => h z hz hlen (hsuf.trans (List.suffix_cons c x')))]
    have hterm : isPrefixB pat (c :: (x' ++ y)) = isPrefixB pat (c :: x') := by
      by_cases hle : pat.length ≤ (c :: x').length
      · rw [show c :: (x' ++ y) = (c :: x') ++ y from rfl, isPrefixB_append_of_le hle]
      · push_neg at hle
        have h1 : isPrefixB pat (c :: (x' ++ y)) = false := by
          rw [show c :: (x' ++ y) = (c :: x') ++ y from rfl]
          exact h (c :: x') (by simp) hle (List.suffix_refl _)
        have h2 : isPrefixB pat (c :: x') = false := by
          cases hb : isPrefixB pat (c :: x')
          · rfl
          · exact absurd (isPrefixB_length_le hb) (by omega)
        rw [h1, h2]
    rw [hterm]
    omega

theorem countSub_sep_head {pat x : Str} {d : Char} {y : Str}
    (hd : ∀ c ∈ pat, c ≠ d) :
    countSub pat (x ++ d :: y) = countSub pat x + countSub pat (d :: y) := by
  apply countSub_append_gen
  intro z hz hlen _
  cases hb : isPrefixB pat (z ++ d :: y)
  · rfl
  · exfalso
    have hsplit := isPrefixB_append_split hlen hb
    have hdrop := hsplit.2
    cases hp : pat.drop z.length with
    | nil =>
      have h0 : pat.length - z.length = 0 := by simpa using congrArg List.length hp
      omega
    | cons p0 ps =>
      rw [hp] at hdrop
      have hd0 : d = p0 := isPrefixB_cons_head hdrop
      have hmem : p0 ∈ pat := List.drop_subset z.length pat (hp ▸ List.mem_cons_self p0 ps)
      exact hd p0 hmem hd0.symm


theorem countSub_sep_last {pat x y : Str} {e : Char}
    (hx : x.getLast? = some e) (he : ∀ c ∈ pat, c ≠ e) :
    countSub pat (x ++ y) = countSub pat x + countSub pat y := by
  apply countSub_append_gen
  intro z hz hlen hsuf
  cases hb : isPrefixB pat (z ++ y)
  · rfl
  · exfalso
    have hsplit := isPrefixB_append_split hlen hb
    have hzlast : z.getLast? = some e := by
      obtain ⟨w, rfl⟩ := hsuf
      rwa [List.getLast?_append_of_ne_nil w hz] at hx
    have hmem : e ∈ z := List.mem_of_mem_getLast? (by rw [hzlast]; rfl)
    have : e ∈ pat := List.take_subset z.length pat (hsplit.1 ▸ hmem)
    exact he e this rfl

theorem containsSub_false_tail {pat : Str} {c : Char} {cs : Str}
    (h : containsSub pat (c :: cs) = false) :
    containsSub pat cs = false ∧ isPrefixB pat (c :: cs) = false := by
  simp only [containsSub, Bool.or_eq_false_iff] at h
  exact ⟨h.2, h.1⟩

theorem firstMatchIdx_boundary {pat A B : Str} (hpat : pat ≠ [])
    (hA : containsSub pat A = false)
    (hstr : ∀ j, 0 < j → j < pat.length → isPrefixB (pat.drop j) pat = false) :
    firstMatchIdx pat (A ++ (pat ++ B)) = some A.length := by
  induction A with
  | nil =>
    rcases List.exists_cons_of_ne_nil hpat with ⟨p0, pt, rfl⟩
    rw [List.nil_append, List.cons_append]
    simp only [firstMatchIdx]
    have hpre : isPrefixB (p0 :: pt) (p0 :: (pt ++ B)) = true := by
      rw [show p0 :: (pt ++ B) = (p0 :: pt) ++ B from rfl, isPrefixB, lit_self]
      rfl
    rw [if_pos hpre]
    rfl
  | cons a A' ih =>
    have htail := containsSub_false_tail hA
    rw [List.cons_append, firstMatchIdx]
    rw [if_neg ?_, ih htail.1]
    · rfl
    · intro hb
      by_cases hle : pat.length ≤ (a :: A').length
      · rw [show a :: (A' ++ (pat ++ B)) = (a :: A') ++ (pat ++ B) from rfl,
          isPrefixB_append_of_le hle] at hb
        rw [htail.2] at hb
        exact Bool.noConfusion hb
      · push_neg at hle
        have hsplit := isPrefixB_append_split (x := a :: A') hle
          (by rw [show (a :: A') ++ (pat ++ B) = a :: (A' ++ (pat ++ B)) from rfl]; exact hb)
        have hdrop := hsplit.2
        have hlen : (pat.drop (a :: A').length).length ≤ pat.length := by
          simp
        rw [isPrefixB_append_of_le hlen B] at hdrop
        have := hstr (a :: A').length (by simp) hle
        rw [this] at hdrop
        exact Bool.noConfusion hdrop

theorem getSubstitution_no_dollar : ∀ (repl : Str), (∀ c ∈ repl, c ≠ '$') →
    ∀ (m b a : Str), getSubstitution repl m b a = repl := by
  intro repl h
  induction repl with
  | nil => intro m b a; rfl
  | cons c rest ih =>
    intro m b a
    have hc : c ≠ '$' := h c (List.mem_cons_self c rest)
    rw [getSubstitution.eq_def]
    simp only []
    rw [if_neg hc, ih (fun d hd => h d (List.mem_cons_of_mem c hd))]

theorem replaceFirstJS_boundary {pat A B repl : Str}
    (hA : containsSub pat A = false)
    (hstr : ∀ j, 0 < j → j < pat.length → isPrefixB (pat.drop j) pat = false)
    (hpat : pat ≠ [])
    (hnd : ∀ c ∈ repl, c ≠ '$') :
    replaceFirstJS (A ++ (pat ++ B)) pat repl = A ++ (repl ++ B) := by
  rw [replaceFirstJS, firstMatchIdx_boundary hpat hA hstr]
  simp only []
  have htake : (A ++ (pat ++ B)).take A.length = A := List.take_left A (pat ++ B)
  have hdrop : (A ++ (pat ++ B)).drop (A.length + pat.length) = B := by
    rw [← List.drop_drop, List.drop_left, List.drop_left]
  rw [htake, hdrop, getSubstitution_no_dollar repl hnd, List.append_assoc]

/-! ### Behaviour of the final strip pass -/

theorem stripTry_consumes {s rest : Str} (h : stripTry s = some rest) :
    ∃ t, s = t ++ rest ∧ t ≠ [] := by
  simp only [stripTry] at h
  cases h1 : lit "\x7b\x7b".data s with
  | none => rw [h1] at h; simp at h
  | some r1 =>
    rw [h1] at h
    simp only [] at h
    split at h
    · cases h2 : lit "\x7d\x7d".data (r1.span (fun c => c ≠ '\x7d')).2 with
      | none => rw [h2] at h; simp at h
      | some rest2 =>
        rw [h2] at h
        simp only [Option.some.injEq] at h
        subst h
        have e1 := lit_eq_append h1
        have e2 := lit_eq_append h2
        have e3 : (r1.span (fun c => c ≠ '\x7d')).1 ++ (r1.span (fun c => c ≠ '\x7d')).2 = r1 := by
          rw [List.span_eq_take_drop]
          exact List.takeWhile_append_dropWhile ..
        refine ⟨"\x7b\x7b".data ++ (r1.span (fun c => c ≠ '\x7d')).1 ++ "\x7d\x7d".data, ?_, by simp⟩
        rw [e1]
        conv_lhs => rw [← e3, e2]
        simp only [List.append_assoc]
    · simp at h

theorem stripTry_none_head {c : Char} {s : Str} (hc : c ≠ '\x7b') :
    stripTry (c :: s) = none := by
  have hlit : lit "\x7b\x7b".data (c :: s) = none := by
    rw [show ("\x7b\x7b".data : Str) = '\x7b' :: ['\x7b'] from by decide]
    simp only [lit]
    rw [if_neg hc]
  simp only [stripTry]
  rw [hlit]

theorem stripTry_none_second {c : Char} {s : Str} (hc : c ≠ '\x7b') :
    stripTry ('\x7b' :: c :: s) = none := by
  have hlit : lit "\x7b\x7b".data ('\x7b' :: c :: s) = none := by
    rw [show ("\x7b\x7b".data : Str) = '\x7b' :: ['\x7b'] from by decide]
    simp only [lit, if_true]
    rw [if_neg hc]
  simp only [stripTry]
  rw [hlit]

theorem stripGo_fuelInv : ∀ (m : Nat) {n : Nat} {s : Str}, s.length ≤ m → s.length ≤ n →
    stripBracesGo m s = stripBracesGo n s := by
  intro m
  induction m with
  | zero =>
    intro n s hm _
    have : s = [] := List.length_eq_zero.mp (Nat.le_zero.mp hm)
    subst this
    cases n <;> rfl
  | succ m ih =>
    intro n s hm hn
    cases s with
    | nil => cases n <;> rfl
    | cons c cs =>
      cases n with
      | zero => simp at hn
      | succ n =>
        simp only [stripBracesGo]
        cases ht : stripTry (c :: cs) with
        | some rest =>
          obtain ⟨t, heq, hne⟩ := stripTry_consumes ht
          have hlt : rest.length ≤ cs.length := by
            have hlen := congrArg List.length heq
            simp only [List.length_cons, List.length_append] at hlen
            have hpos : 0 < t.length := List.length_pos.mpr hne
            omega
          have hm2 : cs.length ≤ m := by simp at hm; omega
          have hn2 : cs.length ≤ n := by simp at hn; omega
          exact ih (Nat.le_trans hlt hm2) (Nat.le_trans hlt hn2)
        | none =>
          rw [ih (by simpa using hm) (by simpa using hn)]

theorem stripBraces_append_nocurly : ∀ (x : Str), (∀ c ∈ x, c ≠ '\x7b') → ∀ (y : Str),
    stripBraces (x ++ y) = x ++ stripBraces y := by
  intro x
  induction x with
  | nil => intro _ y; simp
  | cons c x' ih =>
    intro h y
    have hc : c ≠ '\x7b' := h c (List.mem_cons_self c x')
    rw [List.cons_append, stripBraces]
    have hlen : (c :: (x' ++ y)).length = (x' ++ y).length + 1 := by simp
    rw [hlen]
    simp only [stripBracesGo]
    rw [stripTry_none_head hc]
    simp only []
    rw [show stripBracesGo (x' ++ y).length (x' ++ y) = stripBraces (x' ++ y) from rfl,
      ih (fun d hd => h d (List.mem_cons_of_mem c hd)) y]
    simp

theorem curlySafe_tail {c : Char} {rest : Str} (h : curlySafe (c :: rest) = true) :
    curlySafe rest = true := by
  rw [curlySafe.eq_def] at h
  split at h
  · simp_all
  · exact absurd h (by simp)
  · exact absurd h (by simp)
  · rename_i heq
    injection heq with h1 h2
    subst h2
    exact h

theorem stripBraces_append_safe : ∀ (x : Str), curlySafe x = true → ∀ (y : Str),
    stripBraces (x ++ y) = x ++ stripBraces y := by
  intro x
  induction x with
  | nil => intro _ y; simp
  | cons c x' ih =>
    intro h y
    have htail : curlySafe x' = true := curlySafe_tail h
    have hnone : stripTry (c :: (x' ++ y)) = none := by
      by_cases hc : c = '\x7b'
      · subst hc
        cases x' with
        | nil => exact absurd h (by decide)
        | cons d x'' =>
          by_cases hd : d = '\x7b'
          · subst hd
            rw [show curlySafe ('\x7b' :: '\x7b' :: x'') = false from rfl] at h
            exact absurd h (by simp)
          · exact stripTry_none_second hd
      · exact stripTry_none_head hc
    rw [List.cons_append, stripBraces]
    have hlen : (c :: (x' ++ y)).length = (x' ++ y).length + 1 := by simp
    rw [hlen]
    simp only [stripBracesGo]
    rw [hnone]
    simp only []
    rw [show stripBracesGo (x' ++ y).length (x' ++ y) = stripBraces (x' ++ y) from rfl,
      ih htail y]
    simp

end JAD

/-! ### The Placeholder Protocol output: supporting lemmas for C1 and C8 -/

namespace JAD

theorem c1Tag_no_self_overlap :
    ∀ j, 0 < j → j < c1Tag.length → isPrefixB (c1Tag.drop j) c1Tag = false := by
  intro j h1 h2
  have hlen : c1Tag.length = 27 := by decide
  rw [hlen] at h2
  interval_cases j <;> decide

theorem c8Tag_no_self_overlap :
    ∀ j, 0 < j → j < c8Tag.length → isPrefixB (c8Tag.drop j) c8Tag = false := by
  intro j h1 h2
  have hlen : c8Tag.length = 29 := by decide
  rw [hlen] at h2
  interval_cases j <;> decide

set_option maxRecDepth 100000 in
theorem readyHtml_count (rb fb : Bool) :
    countSub mountPat (readyHtml "abc".data "Sales".data c1Vis rb fb) = 1 := by
  cases rb <;> cases fb <;> decide

set_option maxRecDepth 100000 in
theorem readyHtml_head (rb fb : Bool) :
    ∃ t, readyHtml "abc".data "Sales".data c1Vis rb fb = '<' :: t := by
  cases rb <;> cases fb <;> exact ⟨_, rfl⟩

set_option maxRecDepth 100000 in
theorem readyHtml_last (rb fb : Bool) :
    (readyHtml "abc".data "Sales".data c1Vis rb fb).getLast? = some '>' := by
  cases rb <;> cases fb <;> decide

set_option maxRecDepth 100000 in
theorem readyHtml_safe (rb fb : Bool) :
    curlySafe (readyHtml "abc".data "Sales".data c1Vis rb fb) = true := by
  cases rb <;> cases fb <;> decide

set_option maxRecDepth 100000 in
theorem readyHtml_no_dollar (rb fb : Bool) :
    ∀ c ∈ readyHtml "abc".data "Sales".data c1Vis rb fb, c ≠ '$' := by
  have key : ∀ a b : Bool,
      List.all (readyHtml "abc".data "Sales".data c1Vis a b) (fun d => decide (d ≠ '$')) = true := by
    intro a b
    cases a <;> cases b <;> decide
  intro c hc
  exact of_decide_eq_true (List.all_eq_true.mp (key rb fb) c hc)

set_option maxRecDepth 100000 in
theorem noVis_safe (rb fb : Bool) :
    curlySafe (noVisualizationHtml "xyz".data "Missing".data rb fb) = true := by
  cases rb <;> cases fb <;> decide

set_option maxRecDepth 100000 in
theorem noVis_no_dollar (rb fb : Bool) :
    ∀ c ∈ noVisualizationHtml "xyz".data "Missing".data rb fb, c ≠ '$' := by
  have key : ∀ a b : Bool,
      List.all (noVisualizationHtml "xyz".data "Missing".data a b)
        (fun d => decide (d ≠ '$')) = true := by
    intro a b
    cases a <;> cases b <;> decide
  intro c hc
  exact of_decide_eq_true (List.all_eq_true.mp (key rb fb) c hc)

theorem stripBraces_eq_self_of_safe {x : Str} (h : curlySafe x = true) :
    stripBraces x = x := by
  have h2 := stripBraces_append_safe x h []
  simp only [List.append_nil, show stripBraces ([] : Str) = [] from rfl] at h2
  exact h2

theorem curlySafe_of_nocurly : ∀ {x : Str}, (∀ c ∈ x, c ≠ '\x7b') → curlySafe x = true := by
  intro x
  induction x with
  | nil => intro _; rfl
  | cons c x' ih =>
    intro h
    have hc : c ≠ '\x7b' := h c (List.mem_cons_self c x')
    have htail := ih (fun d hd => h d (List.mem_cons_of_mem c hd))
    rw [curlySafe.eq_def]
    split
    · rfl
    · rename_i heq
      injection heq with h1 h2
      exact absurd h1 hc
    · rename_i heq
      injection heq with h1 h2
      exact absurd h1 hc
    · rename_i heq
      injection heq with h1 h2
      subst h2
      exact htail

set_option maxRecDepth 100000 in
/-- C1, counterexample to the claim as stated: when the prose carries the
marker of the ready artifact `abc` twice, `formatResponse` emits the
deterministically derived mount-point id `vis-container-abc` twice, not
once - each extracted marker occurrence triggers its own first-occurrence
replacement, so the claimed "exactly once even when the marker text
contains the same id twice" fails. -/
theorem claim_C1_counterexample :
    countSub mountPat (formatResponse c1TextTwice [c1Vis] [] none false false
      (fun _ => false)) = 2 ∧ (2 : Nat) ≠ 1 := by
  refine ⟨?_, by decide⟩
  have hmd : markdownToHtml c1TextTwice =
      "<p>".data ++ (c1Tag ++ ("</p>\n<p>".data ++ (c1Tag ++ "</p>".data))) := by decide
  have hex : extractPlaceholders c1TextTwice =
      [("abc".data, "Sales".data), ("abc".data, "Sales".data)] := by decide
  simp only [formatResponse, hex, hmd, List.foldl]
  suffices hs : countSub mountPat (stripBraces (replaceFirstJS (replaceFirstJS
      ("<p>".data ++ (c1Tag ++ ("</p>\n<p>".data ++ (c1Tag ++ "</p>".data)))) c1Tag
        (replacementHtmlFor [c1Vis] "abc".data "Sales".data false false)) c1Tag
        (replacementHtmlFor [c1Vis] "abc".data "Sales".data false false))) = 2 by exact hs
  have hR : replacementHtmlFor [c1Vis] "abc".data "Sales".data false false =
      readyHtml "abc".data "Sales".data c1Vis false false := by
    simp only [replacementHtmlFor]
    rfl
  rw [hR]
  rw [replaceFirstJS_boundary (by decide) c1Tag_no_self_overlap (by decide)
    (readyHtml_no_dollar false false)]
  have hassoc : "<p>".data ++ (readyHtml "abc".data "Sales".data c1Vis false false ++
      ("</p>\n<p>".data ++ (c1Tag ++ "</p>".data))) =
      ("<p>".data ++ (readyHtml "abc".data "Sales".data c1Vis false false ++
        "</p>\n<p>".data)) ++ (c1Tag ++ "</p>".data) := by
    simp [List.append_assoc]
  rw [hassoc]
  rw [replaceFirstJS_boundary (by decide) c1Tag_no_self_overlap (by decide)
    (readyHtml_no_dollar false false)]
  rw [stripBraces_append_safe _ (by decide),
    stripBraces_append_safe _ (readyHtml_safe false false),
    stripBraces_eq_self_of_safe (by decide)]
  have hsep : countSub mountPat (("<p>".data ++ (readyHtml "abc".data "Sales".data c1Vis
      false false ++ "</p>\n<p>".data)) ++ (readyHtml "abc".data "Sales".data c1Vis
      false false ++ "</p>".data)) =
      countSub mountPat ("<p>".data ++ (readyHtml "abc".data "Sales".data c1Vis
        false false ++ "</p>\n<p>".data)) +
      countSub mountPat (readyHtml "abc".data "Sales".data c1Vis false false ++
        "</p>".data) := by
    have hx : ("<p>".data ++ (readyHtml "abc".data "Sales".data c1Vis false false ++
        "</p>\n<p>".data)).getLast? = some '>' := by
      rw [List.getLast?_append_of_ne_nil _ (by decide),
        List.getLast?_append_of_ne_nil _ (by decide)]
      decide
    refine countSub_sep_last hx ?_
    decide
  rw [hsep]
  have hc1 : countSub mountPat ("<p>".data ++ (readyHtml "abc".data "Sales".data c1Vis
      false false ++ "</p>\n<p>".data)) = 1 := by decide
  have hc2 : countSub mountPat (readyHtml "abc".data "Sales".data c1Vis false false ++
      "</p>".data) = 1 := by decide
  rw [hc1, hc2]

/-- C1, amended: one mount point per marker occurrence. When the prose
carries a single occurrence of the marker of the ready artifact `abc`
(surrounded by marker-free, brace-free context), the Placeholder Protocol
output contains the deterministically derived mount-point id
`vis-container-abc` exactly once, for any regeneration state and any
file availability. -/
theorem claim_C1_amended_single_marker (vs : List Visualization) (text A B : Str)
    (rg : Str → Bool) (file cachedFile : Bool)
    (h1 : vs.find? (fun v => v.id == "abc".data) = some c1Vis)
    (h2 : extractPlaceholders text = [("abc".data, "Sales".data)])
    (h3 : markdownToHtml text = A ++ (c1Tag ++ B))
    (h4 : containsSub c1Tag A = false)
    (h5 : countSub mountPat A = 0)
    (h6 : countSub mountPat B = 0)
    (h7 : ∀ c ∈ A, c ≠ '\x7b')
    (h8 : ∀ c ∈ B, c ≠ '\x7b') :
    countSub mountPat (formatResponse text vs [] none file cachedFile rg) = 1 := by
  simp only [formatResponse, h2, h3, List.foldl]
  suffices hs : countSub mountPat (stripBraces (replaceFirstJS (A ++ (c1Tag ++ B)) c1Tag
      (replacementHtmlFor vs "abc".data "Sales".data (rg "abc".data)
        (fileDataAvailableOf file cachedFile none)))) = 1 by exact hs
  have hR : replacementHtmlFor vs "abc".data "Sales".data (rg "abc".data)
      (fileDataAvailableOf file cachedFile none) =
      readyHtml "abc".data "Sales".data c1Vis (rg "abc".data)
        (fileDataAvailableOf file cachedFile none) := by
    simp only [replacementHtmlFor, h1]
    rfl
  rw [hR]
  rw [replaceFirstJS_boundary h4 c1Tag_no_self_overlap (by decide) (readyHtml_no_dollar _ _)]
  rw [stripBraces_append_safe A (curlySafe_of_nocurly h7),
    stripBraces_append_safe _ (readyHtml_safe _ _),
    stripBraces_eq_self_of_safe (curlySafe_of_nocurly h8)]
  have hsep1 : countSub mountPat (A ++ (readyHtml "abc".data "Sales".data c1Vis
      (rg "abc".data) (fileDataAvailableOf file cachedFile none) ++ B)) =
      countSub mountPat A + countSub mountPat (readyHtml "abc".data "Sales".data c1Vis
        (rg "abc".data) (fileDataAvailableOf file cachedFile none) ++ B) := by
    obtain ⟨t, ht⟩ := readyHtml_head (rg "abc".data) (fileDataAvailableOf file cachedFile none)
    rw [ht, List.cons_append]
    exact countSub_sep_head (by decide)
  have hsep2 : countSub mountPat (readyHtml "abc".data "Sales".data c1Vis
      (rg "abc".data) (fileDataAvailableOf file cachedFile none) ++ B) =
      countSub mountPat (readyHtml "abc".data "Sales".data c1Vis
        (rg "abc".data) (fileDataAvailableOf file cachedFile none)) + countSub mountPat B :=
    countSub_sep_last (readyHtml_last _ _) (by decide)
  rw [hsep1, hsep2, h5, h6, readyHtml_count]

set_option maxRecDepth 100000 in
theorem claim_C1_amended_witness :
    countSub mountPat (formatResponse c1TextOnce [c1Vis] [] none false false
      (fun _ => false)) = 1 := by
  exact claim_C1_amended_single_marker [c1Vis] c1TextOnce "<p>Intro ".data " end</p>".data
    (fun _ => false) false false (by decide) (by decide) (by decide) (by decide)
    (by decide) (by decide) (by decide) (by decide)

set_option maxRecDepth 100000 in
/-- C8: for a marker whose id has no matching artifact in the session's
artifact list, the Placeholder Protocol output is the surrounding prose
with the marker replaced by the error-state fragment; when no source
document bytes are available (no in-memory file, no cached file, no
persisted tab bytes) the fragment's action button carries the `disabled`
attribute and the explanatory notice, when bytes are available and no
regeneration is running it carries neither, and when no regeneration is
running the action is labelled Generate. -/
theorem claim_C8_missing_artifact_disabled (vs : List Visualization) (text A B : Str)
    (rg : Str → Bool) (file cachedFile : Bool)
    (h1 : vs.find? (fun v => v.id == "xyz".data) = none)
    (h2 : extractPlaceholders text = [("xyz".data, "Missing".data)])
    (h3 : markdownToHtml text = A ++ (c8Tag ++ B))
    (h4 : containsSub c8Tag A = false)
    (h5 : ∀ c ∈ A, c ≠ '\x7b')
    (h6 : ∀ c ∈ B, c ≠ '\x7b') :
    formatResponse text vs [] none file cachedFile rg =
      A ++ (noVisualizationHtml "xyz".data "Missing".data (rg "xyz".data)
        (fileDataAvailableOf file cachedFile none) ++ B) ∧
    (fileDataAvailableOf file cachedFile none = false →
      containsSub "disabled".data (noVisualizationHtml "xyz".data "Missing".data
        (rg "xyz".data) (fileDataAvailableOf file cachedFile none)) = true ∧
      containsSub fileDataWarningHtml (noVisualizationHtml "xyz".data "Missing".data
        (rg "xyz".data) (fileDataAvailableOf file cachedFile none)) = true) ∧
    (fileDataAvailableOf file cachedFile none = true → rg "xyz".data = false →
      containsSub "disabled".data (noVisualizationHtml "xyz".data "Missing".data
        (rg "xyz".data) (fileDataAvailableOf file cachedFile none)) = false) ∧
    (rg "xyz".data = false →
      containsSub "Generate".data (noVisualizationHtml "xyz".data "Missing".data
        (rg "xyz".data) (fileDataAvailableOf file cachedFile none)) = true) := by
  refine ⟨?_, ?_, ?_, ?_⟩
  · simp only [formatResponse, h2, h3, List.foldl]
    suffices hs : stripBraces (replaceFirstJS (A ++ (c8Tag ++ B)) c8Tag
        (replacementHtmlFor vs "xyz".data "Missing".data (rg "xyz".data)
          (fileDataAvailableOf file cachedFile none))) =
        A ++ (noVisualizationHtml "xyz".data "Missing".data (rg "xyz".data)
          (fileDataAvailableOf file cachedFile none) ++ B) by exact hs
    have hN : replacementHtmlFor vs "xyz".data "Missing".data (rg "xyz".data)
        (fileDataAvailableOf file cachedFile none) =
        noVisualizationHtml "xyz".data "Missing".data (rg "xyz".data)
          (fileDataAvailableOf file cachedFile none) := by
      simp only [replacementHtmlFor, h1]
    rw [hN]
    rw [replaceFirstJS_boundary h4 c8Tag_no_self_overlap (by decide) (noVis_no_dollar _ _)]
    rw [stripBraces_append_safe A (curlySafe_of_nocurly h5),
      stripBraces_append_safe _ (noVis_safe _ _),
      stripBraces_eq_self_of_safe (curlySafe_of_nocurly h6)]
  · intro hf
    rw [hf]
    cases hr : rg "xyz".data <;> exact ⟨by decide, by decide⟩
  · intro hf hr
    rw [hf, hr]
    decide
  · intro hr
    rw [hr]
    cases hf : fileDataAvailableOf file cachedFile none <;> decide

set_option maxRecDepth 100000 in
theorem claim_C8_witness :
    formatResponse c8TextOnce [] [] none false false (fun _ => false) =
      "<p>Intro ".data ++ (noVisualizationHtml "xyz".data "Missing".data false false ++
        " end</p>".data) ∧
    (false = false →
      containsSub "disabled".data (noVisualizationHtml "xyz".data "Missing".data
        false false) = true ∧
      containsSub fileDataWarningHtml (noVisualizationHtml "xyz".data "Missing".data
        false false) = true) ∧
    (false = true → false = false →
      containsSub "disabled".data (noVisualizationHtml "xyz".data "Missing".data
        false false) = false) ∧
    (false = false →
      containsSub "Generate".data (noVisualizationHtml "xyz".data "Missing".data
        false false) = true) := by
  exact claim_C8_missing_artifact_disabled [] c8TextOnce "<p>Intro ".data " end</p>".data
    (fun _ => false) false false (by decide) (by decide) (by decide) (by decide)
    (by decide) (by decide)

end JAD
